import Mathlib

/-!
# Verification of the `date-shortcuts` parser (`src/index.ts`)

The parser manipulates JavaScript `Date` values exclusively through their UTC
accessors (`getUTCFullYear`, `setUTCMonth`, `setUTCDate`, `getUTCDay`, ...).
Following ECMA-262, a `Date` is a single number of milliseconds since the
epoch; every accessor is defined from the proleptic Gregorian ("civil")
calendar.  We embed a `Date` as an unbounded `Int` of milliseconds and define
the accessors through the standard civil-calendar conversions
(`daysFromCivil` / `civilFromDays`, months 0-indexed as in JavaScript).
`Int` division `/` and remainder `%` in Lean are Euclidean; for the positive
constant divisors used throughout they coincide with the floor operations
required by ECMA-262.

Strings are embedded as `List Char` (the shortcuts handled by the parser are
ASCII); the parser functions are translated from `src/index.ts`, with
fallible steps returning `Except ParseError`.
-/

namespace DateShortcuts

/-- Proleptic-Gregorian leap year (ECMA-262 `DaysInYear`). -/
def isLeap (y : Int) : Prop :=
  y % 4 = 0 ∧ y % 100 ≠ 0 ∨ y % 400 = 0

instance (y : Int) : Decidable (isLeap y) := by
  unfold isLeap; infer_instance

/-- Number of days of month `m` (0-indexed, JavaScript convention) of year
`y`.  Spec-level table; proved below to agree with the way `src/index.ts`
computes month lengths (`new Date(Date.UTC(y, m + 1, 0)).getUTCDate()`). -/
def daysInMonthT (y m : Int) : Int :=
  if m = 1 then (if isLeap y then 29 else 28)
  else if m = 3 ∨ m = 5 ∨ m = 8 ∨ m = 10 then 30 else 31

/-- A calendar date as year / month (0-indexed) / day-of-month. -/
structure Civil where
  year : Int
  month : Int
  day : Int
deriving DecidableEq, Repr

/-- `m` is a valid month index and `d` a valid day of month `m` of year `y`. -/
def Civil.Valid (y m d : Int) : Prop :=
  0 ≤ m ∧ m ≤ 11 ∧ 1 ≤ d ∧ d ≤ daysInMonthT y m

instance (y m d : Int) : Decidable (Civil.Valid y m d) := by
  unfold Civil.Valid; infer_instance

/-- Day number (days since 1970-01-01 UTC) of the civil date `(y, m, d)`;
month `m` is 0-indexed and expected in `[0, 11]`, while `d` may lie outside
the month (the function is linear in `d`), matching ECMA-262 `MakeDay` after
month normalisation. -/
def daysFromCivil (y m d : Int) : Int :=
  let y2 := if m ≤ 1 then y - 1 else y
  let era := y2 / 400
  let yoe := y2 - 400 * era
  let mp := (m + 10) % 12
  let doy := (153 * mp + 2) / 5 + d - 1
  let doe := yoe * 365 + yoe / 4 - yoe / 100 + doy
  146097 * era + doe - 719468

/-- Civil date of a day number (inverse of `daysFromCivil`). -/
def civilFromDays (z : Int) : Civil :=
  let z2 := z + 719468
  let era := z2 / 146097
  let doe := z2 - 146097 * era
  let yoe := (doe - doe / 1460 + doe / 36524 - doe / 146096) / 365
  let y := yoe + 400 * era
  let doy := doe - (365 * yoe + yoe / 4 - yoe / 100)
  let mp := (5 * doy + 2) / 153
  let d := doy - (153 * mp + 2) / 5 + 1
  let m := if mp < 10 then mp + 2 else mp - 10
  ⟨if m ≤ 1 then y + 1 else y, m, d⟩

set_option maxHeartbeats 4000000 in
/-- Core arithmetic fact behind `civilFromDays`: the year-of-era is recovered
from the day-of-era. -/
theorem yoe_recovery (yoe doy : Int) (h1 : 0 ≤ yoe) (h2 : yoe ≤ 399) (h3 : 0 ≤ doy)
    (h4 : doy ≤ 364 ∨ (doy = 365 ∧ ((yoe % 4 = 3 ∧ ¬ yoe % 100 = 99) ∨ yoe = 399))) :
    ((yoe * 365 + yoe / 4 - yoe / 100 + doy) -
      (yoe * 365 + yoe / 4 - yoe / 100 + doy) / 1460 +
      (yoe * 365 + yoe / 4 - yoe / 100 + doy) / 36524 -
      (yoe * 365 + yoe / 4 - yoe / 100 + doy) / 146096) / 365 = yoe := by
  interval_cases yoe <;> omega

/-- `civilFromDays` unfolded on an era/year-of-era/day-of-year decomposition
of its argument. -/
theorem civilFromDays_decomp (era yoe doy : Int)
    (h1 : 0 ≤ yoe) (h2 : yoe ≤ 399) (h3 : 0 ≤ doy) (h4 : doy ≤ 365)
    (hyr : ((yoe * 365 + yoe / 4 - yoe / 100 + doy) -
      (yoe * 365 + yoe / 4 - yoe / 100 + doy) / 1460 +
      (yoe * 365 + yoe / 4 - yoe / 100 + doy) / 36524 -
      (yoe * 365 + yoe / 4 - yoe / 100 + doy) / 146096) / 365 = yoe) :
    civilFromDays (146097 * era + (yoe * 365 + yoe / 4 - yoe / 100 + doy) - 719468)
      = (let mp := (5 * doy + 2) / 153
         let d := doy - (153 * mp + 2) / 5 + 1
         let m := if mp < 10 then mp + 2 else mp - 10
         ⟨if m ≤ 1 then yoe + 400 * era + 1 else yoe + 400 * era, m, d⟩) := by
  have hz2 : 146097 * era + (yoe * 365 + yoe / 4 - yoe / 100 + doy) - 719468 + 719468
      = 146097 * era + (yoe * 365 + yoe / 4 - yoe / 100 + doy) := by ring
  have hera : (146097 * era + (yoe * 365 + yoe / 4 - yoe / 100 + doy)) / 146097 = era := by
    omega
  have hdoe : 146097 * era + (yoe * 365 + yoe / 4 - yoe / 100 + doy) - 146097 * era
      = yoe * 365 + yoe / 4 - yoe / 100 + doy := by ring
  have hdoy : yoe * 365 + yoe / 4 - yoe / 100 + doy - (365 * yoe + yoe / 4 - yoe / 100)
      = doy := by ring
  simp only [civilFromDays]
  rw [hz2, hera, hdoe, hyr, hdoy]

/-- `civilFromDays` is a left inverse of `daysFromCivil` on valid dates. -/
theorem civilFromDays_daysFromCivil (y m d : Int) (h : Civil.Valid y m d) :
    civilFromDays (daysFromCivil y m d) = ⟨y, m, d⟩ := by
  obtain ⟨hm1, hm2, hd1, hd2⟩ := h
  have hyr := yoe_recovery
  unfold daysFromCivil
  simp only [daysInMonthT] at hd2
  interval_cases m <;> norm_num at hd2 ⊢
  · -- January: mp = 10, shifted year y - 1
    rw [civilFromDays_decomp ((y - 1) / 400) (y - 1 - 400 * ((y - 1) / 400)) (306 + d - 1)
      (by omega) (by omega) (by omega) (by omega)
      (hyr _ _ (by omega) (by omega) (by omega) (by omega))]
    norm_num
    constructor <;> omega
  · -- February: mp = 11, shifted year y - 1; leap analysis
    by_cases hl : isLeap y <;> simp only [hl, if_true, if_false, reduceIte] at hd2 <;>
      unfold isLeap at hl <;>
      rw [civilFromDays_decomp ((y - 1) / 400) (y - 1 - 400 * ((y - 1) / 400)) (337 + d - 1)
        (by omega) (by omega) (by omega) (by omega)
        (hyr _ _ (by omega) (by omega) (by omega) (by omega))] <;>
      norm_num <;> constructor <;> omega
  · rw [civilFromDays_decomp (y / 400) (y - 400 * (y / 400)) (d - 1)
      (by omega) (by omega) (by omega) (by omega)
      (hyr _ _ (by omega) (by omega) (by omega) (by omega))]
    norm_num
    constructor <;> omega
  · rw [civilFromDays_decomp (y / 400) (y - 400 * (y / 400)) (31 + d - 1)
      (by omega) (by omega) (by omega) (by omega)
      (hyr _ _ (by omega) (by omega) (by omega) (by omega))]
    norm_num
    constructor <;> omega
  · rw [civilFromDays_decomp (y / 400) (y - 400 * (y / 400)) (61 + d - 1)
      (by omega) (by omega) (by omega) (by omega)
      (hyr _ _ (by omega) (by omega) (by omega) (by omega))]
    norm_num
    constructor <;> omega
  · rw [civilFromDays_decomp (y / 400) (y - 400 * (y / 400)) (92 + d - 1)
      (by omega) (by omega) (by omega) (by omega)
      (hyr _ _ (by omega) (by omega) (by omega) (by omega))]
    norm_num
    constructor <;> omega
  · rw [civilFromDays_decomp (y / 400) (y - 400 * (y / 400)) (122 + d - 1)
      (by omega) (by omega) (by omega) (by omega)
      (hyr _ _ (by omega) (by omega) (by omega) (by omega))]
    norm_num
    constructor <;> omega
  · rw [civilFromDays_decomp (y / 400) (y - 400 * (y / 400)) (153 + d - 1)
      (by omega) (by omega) (by omega) (by omega)
      (hyr _ _ (by omega) (by omega) (by omega) (by omega))]
    norm_num
    constructor <;> omega
  · rw [civilFromDays_decomp (y / 400) (y - 400 * (y / 400)) (184 + d - 1)
      (by omega) (by omega) (by omega) (by omega)
      (hyr _ _ (by omega) (by omega) (by omega) (by omega))]
    norm_num
    constructor <;> omega
  · rw [civilFromDays_decomp (y / 400) (y - 400 * (y / 400)) (214 + d - 1)
      (by omega) (by omega) (by omega) (by omega)
      (hyr _ _ (by omega) (by omega) (by omega) (by omega))]
    norm_num
    constructor <;> omega
  · rw [civilFromDays_decomp (y / 400) (y - 400 * (y / 400)) (245 + d - 1)
      (by omega) (by omega) (by omega) (by omega)
      (hyr _ _ (by omega) (by omega) (by omega) (by omega))]
    norm_num
    constructor <;> omega
  · rw [civilFromDays_decomp (y / 400) (y - 400 * (y / 400)) (275 + d - 1)
      (by omega) (by omega) (by omega) (by omega)
      (hyr _ _ (by omega) (by omega) (by omega) (by omega))]
    norm_num
    constructor <;> omega

/-- Every day-of-era arises from a year-of-era and an in-range day-of-year. -/
theorem doe_cover (doe : Int) (h0 : 0 ≤ doe) (h1 : doe ≤ 146096) :
    ∃ yoe doy, 0 ≤ yoe ∧ yoe ≤ 399 ∧ 0 ≤ doy ∧
      (doy ≤ 364 ∨ (doy = 365 ∧ ((yoe % 4 = 3 ∧ ¬ yoe % 100 = 99) ∨ yoe = 399))) ∧
      doe = yoe * 365 + yoe / 4 - yoe / 100 + doy := by
  obtain ⟨n, rfl⟩ : ∃ n : ℕ, doe = n := ⟨doe.toNat, (Int.toNat_of_nonneg h0).symm⟩
  clear h0
  induction n with
  | zero => exact ⟨0, 0, by norm_num⟩
  | succ k ih =>
    have hk : (k : Int) ≤ 146096 := by push_cast at h1 ⊢; omega
    obtain ⟨yoe, doy, hy0, hy1, hd0, hfit, heq⟩ := ih hk
    clear ih
    push_cast at h1 heq ⊢
    rcases hfit with hA | ⟨hB, hC⟩
    · by_cases h363 : doy ≤ 363
      · exact ⟨yoe, doy + 1, by omega, by omega, by omega, by omega, by omega⟩
      · -- `doy = 364`: last ordinary day; extend into a leap day or roll over
        by_cases hcond : (yoe % 4 = 3 ∧ ¬ yoe % 100 = 99) ∨ yoe = 399
        · exact ⟨yoe, doy + 1, by omega, by omega, by omega,
            Or.inr ⟨by omega, hcond⟩, by omega⟩
        · have hnc1 : ¬(yoe % 4 = 3 ∧ ¬ yoe % 100 = 99) := fun h' => hcond (Or.inl h')
          have hd2 : yoe ≠ 399 := fun h' => hcond (Or.inr h')
          have hmm : yoe % 100 % 4 = yoe % 4 :=
            Int.emod_emod_of_dvd yoe (by norm_num)
          have hd1 : yoe % 4 ≠ 3 ∨ yoe % 100 = 99 := by
            by_cases h4 : yoe % 4 = 3
            · by_cases h100 : yoe % 100 = 99
              · exact Or.inr h100
              · exact absurd ⟨h4, h100⟩ hnc1
            · exact Or.inl h4
          have hsame : (yoe + 1) / 4 - yoe / 4 = (yoe + 1) / 100 - yoe / 100 := by
            rcases hd1 with h' | h'
            · have h99 : yoe % 100 ≠ 99 := by omega
              have e1 : (yoe + 1) / 4 = yoe / 4 := by omega
              have e2 : (yoe + 1) / 100 = yoe / 100 := by omega
              omega
            · have h4 : yoe % 4 = 3 := by omega
              have e1 : (yoe + 1) / 4 = yoe / 4 + 1 := by omega
              have e2 : (yoe + 1) / 100 = yoe / 100 + 1 := by omega
              omega
          exact ⟨yoe + 1, 0, by omega, by omega, by omega, by omega, by omega⟩
    · -- `doy = 365`: the year ended with a leap day; roll to the next year
      rcases hC with ⟨hc1, hc2⟩ | hc
      · have hstep4 : (yoe + 1) / 4 - yoe / 4 = 1 := by omega
        have hstep100 : (yoe + 1) / 100 - yoe / 100 = 0 := by omega
        exact ⟨yoe + 1, 0, by omega, by omega, by omega, by omega, by omega⟩
      · -- `yoe = 399` with `doy = 365` is the last day of the era
        exact absurd h1 (by omega)

/-- The date produced by `civilFromDays` on an era decomposition is a valid
civil date and maps back to the decomposed day number. -/
theorem output_valid (era yoe doy mp d m y : Int)
    (hy0 : 0 ≤ yoe) (hy1 : yoe ≤ 399) (hd0 : 0 ≤ doy)
    (hfit : doy ≤ 364 ∨ (doy = 365 ∧ ((yoe % 4 = 3 ∧ ¬ yoe % 100 = 99) ∨ yoe = 399)))
    (hmp : mp = (5 * doy + 2) / 153)
    (hd : d = doy - (153 * mp + 2) / 5 + 1)
    (hm : m = if mp < 10 then mp + 2 else mp - 10)
    (hy : y = if m ≤ 1 then yoe + 400 * era + 1 else yoe + 400 * era) :
    Civil.Valid y m d ∧
      daysFromCivil y m d =
        146097 * era + (yoe * 365 + yoe / 4 - yoe / 100 + doy) - 719468 := by
  have hmp12 : mp = 0 ∨ mp = 1 ∨ mp = 2 ∨ mp = 3 ∨ mp = 4 ∨ mp = 5 ∨ mp = 6 ∨ mp = 7 ∨
      mp = 8 ∨ mp = 9 ∨ mp = 10 ∨ mp = 11 := by omega
  unfold Civil.Valid daysInMonthT daysFromCivil
  rcases hmp12 with h | h | h | h | h | h | h | h | h | h | h | h <;> subst h <;>
    norm_num at hm <;> subst hm <;> norm_num at hy ⊢ <;> subst hy <;> norm_num <;>
    first
      | (refine ⟨⟨?_, ?_⟩, ?_⟩ <;> omega)
      | -- mp = 11, February: leap-year analysis
        (unfold isLeap; split_ifs with hl <;> refine ⟨⟨?_, ?_⟩, ?_⟩ <;> omega)

/-- `daysFromCivil` is a right inverse of `civilFromDays`: the fields of any
day number form a valid civil date that recomposes to the same day number. -/
theorem daysFromCivil_civilFromDays (z : Int) :
    Civil.Valid (civilFromDays z).year (civilFromDays z).month (civilFromDays z).day ∧
      daysFromCivil (civilFromDays z).year (civilFromDays z).month (civilFromDays z).day
        = z := by
  obtain ⟨yoe, doy, hy0, hy1, hd0, hfit, heq⟩ :=
    doe_cover ((z + 719468) % 146097) (Int.emod_nonneg _ (by norm_num))
      (by have := Int.emod_lt_of_pos (z + 719468) (show (0:Int) < 146097 by norm_num); omega)
  have hz : z = 146097 * ((z + 719468) / 146097) +
      (yoe * 365 + yoe / 4 - yoe / 100 + doy) - 719468 := by omega
  have hout := output_valid ((z + 719468) / 146097) yoe doy _ _ _ _ hy0 hy1 hd0 hfit
    rfl rfl rfl rfl
  rw [hz, civilFromDays_decomp _ yoe doy hy0 hy1 hd0 (by omega)
    (yoe_recovery _ _ hy0 hy1 hd0 hfit)]
  exact hout

/-! ## The JavaScript `Date` model (ECMA-262 time values, UTC accessors) -/

/-- ECMA-262 `Day(t)`. -/
def jsDay (t : Int) : Int := t / 86400000

/-- ECMA-262 `TimeWithinDay(t)`. -/
def timeWithinDay (t : Int) : Int := t % 86400000

/-- ECMA-262 `MakeDate(day, time)`. -/
def mkMs (day tod : Int) : Int := day * 86400000 + tod

def getUTCFullYear (t : Int) : Int := (civilFromDays (jsDay t)).year

def getUTCMonth (t : Int) : Int := (civilFromDays (jsDay t)).month

def getUTCDate (t : Int) : Int := (civilFromDays (jsDay t)).day

/-- ECMA-262 `WeekDay(t) = (Day(t) + 4) modulo 7` (0 = Sunday). -/
def getUTCDay (t : Int) : Int := (jsDay t + 4) % 7

def getUTCHours (t : Int) : Int := t / 3600000 % 24

def getUTCMinutes (t : Int) : Int := t / 60000 % 60

def getUTCSeconds (t : Int) : Int := t / 1000 % 60

/-- ECMA-262 `MakeFullYear`: integer years 0..99 are interpreted as
1900..1999 by `Date.UTC` and the `Date` constructor. -/
def makeFullYear (y : Int) : Int := if 0 ≤ y ∧ y ≤ 99 then 1900 + y else y

/-- ECMA-262 `MakeDay` (month normalised into the year, day unrestricted). -/
def makeDay (y m d : Int) : Int := daysFromCivil (y + m / 12) (m % 12) d

/-- `Date.UTC(y, m, d)`: time value of midnight of the given date (note the
`MakeFullYear` adjustment of two-digit years). -/
def dateUTC (y m d : Int) : Int := mkMs (makeDay (makeFullYear y) m d) 0

/-- `d.setUTCDate(n)`. -/
def setUTCDate (t d : Int) : Int :=
  mkMs (makeDay (getUTCFullYear t) (getUTCMonth t) d) (timeWithinDay t)

/-- `d.setUTCMonth(m)`. -/
def setUTCMonth (t m : Int) : Int :=
  mkMs (makeDay (getUTCFullYear t) m (getUTCDate t)) (timeWithinDay t)

/-- `d.setUTCFullYear(y)` (no `MakeFullYear` adjustment here, per ECMA-262). -/
def setUTCFullYear (t y : Int) : Int :=
  mkMs (makeDay y (getUTCMonth t) (getUTCDate t)) (timeWithinDay t)

/-- `d.setUTCHours(h, mi, s, ms)`. -/
def setUTCHours (t h mi s ms : Int) : Int :=
  mkMs (jsDay t) (((h * 60 + mi) * 60 + s) * 1000 + ms)

theorem daysFromCivil_linear (y m d : Int) :
    daysFromCivil y m d = daysFromCivil y m 1 + (d - 1) := by
  unfold daysFromCivil; ring_nf

theorem makeDay_of_month_range (y m d : Int) (h0 : 0 ≤ m) (h1 : m ≤ 11) :
    makeDay y m d = daysFromCivil y m d := by
  unfold makeDay
  rw [show y + m / 12 = y by omega, show m % 12 = m by omega]

theorem mkMs_jsDay (t : Int) : mkMs (jsDay t) (timeWithinDay t) = t := by
  unfold mkMs jsDay timeWithinDay; omega

theorem jsDay_mkMs (day tod : Int) (h0 : 0 ≤ tod) (h1 : tod < 86400000) :
    jsDay (mkMs day tod) = day ∧ timeWithinDay (mkMs day tod) = tod := by
  unfold mkMs jsDay timeWithinDay; omega

theorem timeWithinDay_range (t : Int) :
    0 ≤ timeWithinDay t ∧ timeWithinDay t < 86400000 := by
  unfold timeWithinDay; omega

/-- The civil fields of any time value are a valid date recomposing to its
day number. -/
theorem fields_valid (t : Int) :
    Civil.Valid (getUTCFullYear t) (getUTCMonth t) (getUTCDate t) ∧
      daysFromCivil (getUTCFullYear t) (getUTCMonth t) (getUTCDate t) = jsDay t :=
  daysFromCivil_civilFromDays (jsDay t)

/-- `setUTCDate` shifts the day number by the difference to the current
day-of-month and keeps the time of day. -/
theorem setUTCDate_eq (t d : Int) :
    setUTCDate t d = mkMs (jsDay t + (d - getUTCDate t)) (timeWithinDay t) := by
  obtain ⟨⟨hm0, hm1, _, _⟩, hrec⟩ := fields_valid t
  unfold setUTCDate
  rw [makeDay_of_month_range _ _ _ hm0 hm1, daysFromCivil_linear]
  rw [daysFromCivil_linear] at hrec
  unfold mkMs
  omega

/-! ## Strings, locale data and parser configuration

Shortcut strings are embedded as `List Char`.  The string operations used by
`src/index.ts` (`trim`, `toLowerCase`, `startsWith`, `substring`, `split`,
`endsWith`, `slice`) are ASCII on every input the parser manipulates, so the
ASCII `Char.toLower` / `Char.isWhitespace` are used. -/

abbrev Str := List Char

/-- Literal helper: the character list of a string literal. -/
def str (s : String) : Str := s.data

def toLowerStr (s : Str) : Str := s.map Char.toLower

/-- `String.prototype.trim`. -/
def trimStr (s : Str) : Str :=
  ((s.dropWhile Char.isWhitespace).reverse.dropWhile Char.isWhitespace).reverse

/-- `parseInt(s, 10)` on an all-digit string. -/
def digitsToNat (s : Str) : Nat :=
  s.foldl (fun a c => a * 10 + (c.toNat - '0'.toNat)) 0

/-- Model of JavaScript `Number(string)` on the strings this parser feeds it
(`defaultTime` components): optional surrounding whitespace, optional sign,
decimal digits; the empty/whitespace string is `0`; everything else is `NaN`
(`none`).  (Forms such as hex or decimal fractions are outside the modelled
domain.) -/
def jsNumber (s : Str) : Option Int :=
  let t := trimStr s
  if t = [] then some 0
  else
    match t with
    | '+' :: rest =>
      if rest ≠ [] ∧ rest.all Char.isDigit then some (digitsToNat rest) else none
    | '-' :: rest =>
      if rest ≠ [] ∧ rest.all Char.isDigit then some (-(digitsToNat rest : Int)) else none
    | _ => if t.all Char.isDigit then some (digitsToNat t) else none

/-- The `{hour, minute, second}` records of `src/index.ts`. -/
structure TimeInfo where
  hour : Int
  minute : Int
  second : Int
deriving DecidableEq, Repr

/-- The typed error taxonomy; each constructor corresponds to one `throw new
Error(...)` site of `src/index.ts`, carrying the data interpolated into the
message. -/
inductive ParseError where
  | emptyShortcut : ParseError
  | unknownLocale (tag : Str) : ParseError
  | invalidDefaultTimeFormat (s : Str) : ParseError
  | invalidDefaultTimeValue (s : Str) : ParseError
  | invalidTimeFormat (shortcut : Str) : ParseError
  | invalidAmPmHour (hour : Int) : ParseError
  | invalidHour (hour : Int) : ParseError
  | invalidPartFormat (part : Str) : ParseError
  | unknownUnit (unit : Str) : ParseError
  | weekdayNotFound (n : Int) : ParseError
deriving DecidableEq, Repr

deriving instance DecidableEq for Except

/-- One entry of a locale's `datePatterns`.  Every shipped pattern has the
shape `^(\d{1,2})SEP(\d{1,2})(?:SEP(\d{2,4}))?` with a separator character
(`/` or `.`), and a `format` string whose only consumed information is
whether it starts with `dd` (day first) or not (month first). -/
structure DatePattern where
  sep : Char
  dayFirst : Bool
deriving DecidableEq, Repr

/-- The `Localization` record of `src/index.ts` (`am`/`pm` default to `[]`
when absent). -/
structure Localization where
  year : List Str
  month : List Str
  week : List Str
  day : List Str
  today : List Str
  weekday : List Str
  datePatterns : List DatePattern
  am : List Str
  pm : List Str
deriving DecidableEq, Repr

/-- The built-in `en` locale (pattern `mm/dd/yyyy`, so day is the second
group). -/
def enLocale : Localization where
  year := [str "y", str "yr", str "year", str "years"]
  month := [str "m", str "mo", str "month", str "months"]
  week := [str "w", str "wk", str "week", str "weeks"]
  day := [str "d", str "day", str "days"]
  today := [str "t", str "today", str "now"]
  weekday := [str "wd", str "weekday", str "weekdays"]
  datePatterns := [⟨'/', false⟩]
  am := [str "am"]
  pm := [str "pm"]

/-- The keyword/unit-type pairs in the `Object.entries` order of the locale
record: year, month, week, day, today, weekday. -/
def unitPairs (loc : Localization) : List (Str × Str) :=
  loc.year.map (fun k => (k, str "year")) ++
  loc.month.map (fun k => (k, str "month")) ++
  loc.week.map (fun k => (k, str "week")) ++
  loc.day.map (fun k => (k, str "day")) ++
  loc.today.map (fun k => (k, str "today")) ++
  loc.weekday.map (fun k => (k, str "weekday"))

/-- `_createUnitTypeMap` followed by `Map.get`: `Map.set` overwrites, so the
last pair wins. -/
def unitTypeLookup (loc : Localization) (k : Str) : Option Str :=
  (unitPairs loc).foldl (fun acc p => if p.1 = k then some p.2 else acc) none

/-- The immutable configuration built by the constructor: reference instant
(`fromDate`, a time value), resolved locale, parsed `defaultTime`. -/
structure Config where
  fromDate : Int
  locale : Localization
  defaultTime : Option TimeInfo
deriving DecidableEq, Repr

/-- `_parseTimeToken` (construction-time `defaultTime` parsing). -/
def _parseTimeToken (timeString : Str) : Except ParseError TimeInfo :=
  let parts := (List.splitOn ':' timeString).map jsNumber
  if parts.any (fun p => p.isNone) ∨ parts.length < 1 ∨ parts.length > 3 then
    .error (.invalidDefaultTimeFormat timeString)
  else
    let hour := ((parts.get? 0).getD (some 0)).getD 0
    let minute := ((parts.get? 1).getD (some 0)).getD 0
    let second := ((parts.get? 2).getD (some 0)).getD 0
    if hour < 0 ∨ hour > 23 ∨ minute < 0 ∨ minute > 59 ∨ second < 0 ∨ second > 59 then
      .error (.invalidDefaultTimeValue timeString)
    else
      .ok ⟨hour, minute, second⟩

/-- The constructor: an empty `defaultTime` option is stored as no default;
a non-empty one must parse. -/
def mkConfig (fromDate : Int) (loc : Localization) (defaultTime : Str) :
    Except ParseError Config :=
  if defaultTime = [] then .ok ⟨fromDate, loc, none⟩
  else (_parseTimeToken defaultTime).map (fun ti => ⟨fromDate, loc, some ti⟩)

/-- The `defaultTime` parsing rule as the specification words it: split on
`':'`, require 1-3 components all numeric (else a format error), read hour,
minute, second (missing components are 0), require hour in [0,23] and
minute/second in [0,59] (else a value error). -/
def specParseTimeToken (s : Str) : Except ParseError TimeInfo :=
  let comps := List.splitOn ':' s
  if comps.length < 1 ∨ comps.length > 3 ∨ ∃ c ∈ comps, jsNumber c = none then
    .error (.invalidDefaultTimeFormat s)
  else
    let nums := comps.map (fun c => (jsNumber c).getD 0)
    let hour := nums.getD 0 0
    let minute := nums.getD 1 0
    let second := nums.getD 2 0
    if 0 ≤ hour ∧ hour ≤ 23 ∧ 0 ≤ minute ∧ minute ≤ 59 ∧
        0 ≤ second ∧ second ≤ 59 then
      .ok ⟨hour, minute, second⟩
    else .error (.invalidDefaultTimeValue s)

/-! ## Time extraction (`_extractTime`)

The time regex is
`(?:\s+|^)(\d{1,2}(?::\d{2})?(?::\d{2})?)\s*(marker?)$` (the
`\s*(...)?` tail only present when the locale has AM/PM markers).  It is
rendered as a hand-rolled matcher: a scan over candidate start positions
(leftmost match wins; a position is viable at the string start or right
after consuming a whitespace run), with the `\d{1,2}` group trying two
digits before one.  The shipped markers contain no digits, colons or
whitespace, so colon groups and the whitespace run can be consumed
greedily. -/

/-- Match `(?::\d{2})` at the head of `s`. -/
def matchColonPair : Str → Option (Str × Str)
  | ':' :: a :: b :: rest =>
    if a.isDigit ∧ b.isDigit then some ([':', a, b], rest) else none
  | _ => none

/-- Match the `\s*(marker)?$` tail (or bare `$` when the locale has no
markers); returns the raw matched marker text, if any. -/
def matchAmPmTail (ampm : List Str) (s : Str) : Option (Option Str) :=
  if ampm = [] then
    if s = [] then some none else none
  else
    let s' := s.dropWhile Char.isWhitespace
    if s' = [] then some none
    else if ampm.any (fun mk => toLowerStr mk = toLowerStr s') then some (some s')
    else none

/-- Match the whole time expression at the current position (after the
`(?:\s+|^)` anchor): digit group, up to two colon groups, AM/PM tail.
Returns `(match[1], match[2])`. -/
def matchTimeCore (ampm : List Str) (s : Str) : Option (Str × Option Str) :=
  let tryRest := fun (digits : Str) (rest : Str) =>
    let (c1, rest1) := match matchColonPair rest with
      | some (cs, r) => (cs, r)
      | none => ([], rest)
    let (c2, rest2) := match matchColonPair rest1 with
      | some (cs, r) => (cs, r)
      | none => ([], rest1)
    match matchAmPmTail ampm rest2 with
    | some marker => some (digits ++ c1 ++ c2, marker)
    | none => none
  match s with
  | c1 :: c2 :: rest =>
    if c1.isDigit then
      if c2.isDigit then
        match tryRest [c1, c2] rest with
        | some r => some r
        | none => tryRest [c1] (c2 :: rest)
      else tryRest [c1] (c2 :: rest)
    else none
  | [c1] => if c1.isDigit then tryRest [c1] [] else none
  | [] => none

/-- Scan positions after the start for a `\s+`-anchored match; `acc` holds
the (reversed) characters before the current position. -/
def scanTimeAux (ampm : List Str) (acc : Str) : Str → Option (Str × Str × Option Str)
  | [] => none
  | c :: rest =>
    if c.isWhitespace then
      match matchTimeCore ampm ((c :: rest).dropWhile Char.isWhitespace) with
      | some (ts, mk) => some (acc.reverse, ts, mk)
      | none => scanTimeAux ampm (c :: acc) rest
    else scanTimeAux ampm (c :: acc) rest

/-- Leftmost match of the time regex: returns
`(text before match.index, match[1], match[2])`. -/
def scanTime (ampm : List Str) (s : Str) : Option (Str × Str × Option Str) :=
  match matchTimeCore ampm s with
  | some (ts, mk) => some ([], ts, mk)
  | none => scanTimeAux ampm [] s

/-- `_extractTime`. -/
def _extractTime (loc : Localization) (shortcut : Str) :
    Except ParseError (Option TimeInfo × Str) :=
  let pm := loc.pm
  let ampm := loc.am ++ pm
  match scanTime ampm shortcut with
  | none => .ok (none, shortcut)
  | some (pre, timeString, ampmRaw) =>
    let ampmPart := ampmRaw.map toLowerStr
    let timeComponents := (List.splitOn ':' timeString).map jsNumber
    let hour0 := ((timeComponents.get? 0).getD (some 0)).getD 0
    let minute := ((timeComponents.get? 1).getD (some 0)).getD 0
    let second := ((timeComponents.get? 2).getD (some 0)).getD 0
    if ((timeComponents.get? 0).getD none).isNone ∨
        minute < 0 ∨ minute > 59 ∨ second < 0 ∨ second > 59 then
      .error (.invalidTimeFormat shortcut)
    else
      match ampmPart with
      | some mk =>
        if hour0 < 1 ∨ hour0 > 12 then .error (.invalidAmPmHour hour0)
        else
          let isPm := mk ∈ pm
          let hour := if isPm ∧ hour0 < 12 then hour0 + 12
            else if ¬isPm ∧ hour0 = 12 then 0 else hour0
          if hour < 0 ∨ hour > 23 then .error (.invalidHour hour0)
          else .ok (some ⟨hour, minute, second⟩, trimStr pre)
      | none =>
        if hour0 < 0 ∨ hour0 > 23 then .error (.invalidHour hour0)
        else .ok (some ⟨hour0, minute, second⟩, trimStr pre)

/-! ## Absolute dates (`_tryParseAbsoluteDate`) -/

/-- Greedy `\d{1,2}` with nothing constraining the character after it. -/
def grabDigits2 : Str → Option (Str × Str)
  | a :: b :: rest =>
    if a.isDigit ∧ b.isDigit then some ([a, b], rest)
    else if a.isDigit then some ([a], b :: rest)
    else none
  | [a] => if a.isDigit then some ([a], []) else none
  | [] => none

/-- The optional `(?:SEP(\d{2,4}))?` year group. -/
def matchYearGroup (sep : Char) : Str → Option (Str × Str)
  | c :: rest =>
    if c = sep then
      let ds := (rest.takeWhile Char.isDigit).take 4
      if ds.length ≥ 2 then some (ds, rest.drop ds.length) else none
    else none
  | [] => none

/-- Match `^(\d{1,2})SEP(\d{1,2})(?:SEP(\d{2,4}))?` at the head of `s`;
returns the three groups and the unconsumed rest. -/
def matchDatePattern (p : DatePattern) (s : Str) :
    Option (Str × Str × Option Str × Str) :=
  let tryFrom := fun (d1 : Str) (rest : Str) =>
    match rest with
    | c :: rest1 =>
      if c = p.sep then
        match grabDigits2 rest1 with
        | some (d2, rest2) =>
          match matchYearGroup p.sep rest2 with
          | some (d3, rest3) => some (d1, d2, some d3, rest3)
          | none => some (d1, d2, none, rest2)
        | none => none
      else none
    | [] => none
  match s with
  | a :: b :: rest =>
    if a.isDigit ∧ b.isDigit then
      match tryFrom [a, b] rest with
      | some r => some r
      | none => tryFrom [a] (b :: rest)
    else if a.isDigit then tryFrom [a] (b :: rest)
    else none
  | [a] => if a.isDigit then tryFrom [a] [] else none
  | [] => none

/-- The pattern loop of `_tryParseAbsoluteDate`: try each pattern in order;
on a match compute the base date (`new Date(Date.UTC(year, month, day))`). -/
def tryPatterns (cfg : Config) (shortcut : Str) : List DatePattern → Option (Int × Str)
  | [] => none
  | p :: ps =>
    match matchDatePattern p shortcut with
    | none => tryPatterns cfg shortcut ps
    | some (p1, p2, p3, rest) =>
      let day := (digitsToNat (if p.dayFirst then p1 else p2) : Int)
      let month := (digitsToNat (if p.dayFirst then p2 else p1) : Int) - 1
      let year := match p3 with
        | some ds => (digitsToNat ds : Int) + (if ds.length ≤ 2 then 2000 else 0)
        | none => getUTCFullYear cfg.fromDate
      some (dateUTC year month day, trimStr rest)

/-- `_tryParseAbsoluteDate`. -/
def _tryParseAbsoluteDate (cfg : Config) (shortcut : Str) : Option (Int × Str) :=
  tryPatterns cfg shortcut cfg.locale.datePatterns

/-! ## Relative parts (`_applyRelativeParts`, `_applySinglePart`) -/

/-- `replace(/([+-])/g, ' $1')`. -/
def signExpand (s : Str) : Str :=
  s.foldr (fun c acc => if c = '+' ∨ c = '-' then ' ' :: c :: acc else c :: acc) []

/-- `split(/\s+/).filter(Boolean)`: the maximal non-whitespace runs, in
order.  `cur` accumulates the current run reversed. -/
def splitWsAux (cur : Str) : Str → List Str
  | [] => if cur = [] then [] else [cur.reverse]
  | c :: rest =>
    if c.isWhitespace then
      if cur = [] then splitWsAux [] rest
      else cur.reverse :: splitWsAux [] rest
    else splitWsAux (c :: cur) rest

def splitWs (s : Str) : List Str := splitWsAux [] s

/-- Reattach a lone leading `+`/`-` token to its successor. -/
def rejoinSigns : List Str → List Str
  | [] => []
  | [x] => [x]
  | x :: y :: rest =>
    if x = ['+'] ∨ x = ['-'] then (x ++ y) :: rejoinSigns rest
    else x :: rejoinSigns (y :: rest)

def isAsciiLetter (c : Char) : Bool :=
  ('a' ≤ c ∧ c ≤ 'z') ∨ ('A' ≤ c ∧ c ≤ 'Z')

/-- Match `^([+-])?(\d*)?([a-z]+)$/i`: optional sign, greedy digits, the
rest must be one or more ASCII letters. -/
def partMatch (s : Str) : Option (Option Char × Str × Str) :=
  let (sign, s1) : Option Char × Str := match s with
    | c :: rest => if c = '+' ∨ c = '-' then (some c, rest) else (none, s)
    | [] => (none, s)
  let digits := s1.takeWhile Char.isDigit
  let letters := s1.drop digits.length
  if letters ≠ [] ∧ letters.all isAsciiLetter then some (sign, digits, letters) else none

/-- The nth-weekday-of-month search loop of `_findNthWeekday`, over the
(ascending or descending) list of day numbers of the month. -/
def _findNthWeekdayAux (year month n : Int) : List Int → Int → Option Int
  | [], _ => none
  | day :: rest, count =>
    let tempDate := dateUTC year month day
    let dayOfWeek := getUTCDay tempDate
    if 0 < dayOfWeek ∧ dayOfWeek < 6 then
      if count + 1 = n then some tempDate
      else _findNthWeekdayAux year month n rest (count + 1)
    else _findNthWeekdayAux year month n rest count

/-- `[1, 2, ..., k]`. -/
def intRange1 (k : Nat) : List Int :=
  (List.range k).map (fun i => (i : Int) + 1)

/-- `_findNthWeekday`. -/
def _findNthWeekday (date : Int) (n : Int) (fromEnd : Bool) : Except ParseError Int :=
  let year := getUTCFullYear date
  let month := getUTCMonth date
  let daysInMonth := getUTCDate (dateUTC year (month + 1) 0)
  let days := if fromEnd then (intRange1 daysInMonth.toNat).reverse
    else intRange1 daysInMonth.toNat
  match _findNthWeekdayAux year month n days 0 with
  | some d => .ok d
  | none => .error (.weekdayNotFound n)

/-- `_findClosestWorkday`. -/
def _findClosestWorkday (date : Int) : Int :=
  let dayOfWeek := getUTCDay date
  if dayOfWeek = 6 then setUTCDate date (getUTCDate date - 1)
  else if dayOfWeek = 0 then setUTCDate date (getUTCDate date + 1)
  else date

/-- The `month` case of `_applySinglePart`: remember the day-of-month, move
to the 1st, shift the month field, measure the target month, clamp. -/
def monthShift (date amount : Int) : Int :=
  let originalDay := getUTCDate date
  let d1 := setUTCDate date 1
  let d2 := setUTCMonth d1 (getUTCMonth d1 + amount)
  let daysInTargetMonth := getUTCDate (dateUTC (getUTCFullYear d2) (getUTCMonth d2 + 1) 0)
  setUTCDate d2 (min originalDay daysInTargetMonth)

/-- `_applySinglePart`. -/
def _applySinglePart (loc : Localization) (date : Int) (part : Str) :
    Except ParseError Int :=
  match partMatch part with
  | none => .error (.invalidPartFormat part)
  | some (sign, valueStr, unitStr) =>
    let unit := toLowerStr unitStr
    match unitTypeLookup loc unit with
    | none =>
      if unit ∈ loc.today then .ok date
      else .error (.unknownUnit unit)
    | some unitType =>
      if unitType = str "today" then .ok date
      else
        let value : Int := if valueStr = [] then 1 else (digitsToNat valueStr : Int)
        let multiplier : Int := if sign = some '-' then -1 else 1
        let amount := value * multiplier
        if unitType = str "year" then
          .ok (setUTCFullYear date (getUTCFullYear date + amount))
        else if unitType = str "month" then
          .ok (monthShift date amount)
        else if unitType = str "week" then
          .ok (setUTCDate date (getUTCDate date + amount * 7))
        else if unitType = str "day" then
          .ok (setUTCDate date (getUTCDate date + amount))
        else if unitType = str "weekday" then
          _findNthWeekday date value (sign = some '-')
        else
          .ok date

/-- `_applyRelativeParts`: tokenize and fold the parts left to right. -/
def _applyRelativeParts (loc : Localization) (date : Int) (shortcut : Str) :
    Except ParseError Int :=
  let trimmed := trimStr shortcut
  if trimmed = [] then .ok date
  else (rejoinSigns (splitWs (trimStr (signExpand trimmed)))).foldlM
    (_applySinglePart loc) date

/-! ## Date resolution and entry point -/

/-- The locale's today keywords sorted by length, longest first (stable, as
`Array.prototype.sort`). -/
def sortedTodayWords (loc : Localization) : List Str :=
  loc.today.foldr insertByLen []
where
  insertByLen (x : Str) : List Str → List Str
    | [] => [x]
    | y :: ys => if x.length > y.length then x :: y :: ys else y :: insertByLen x ys

/-- Consume at most one leading today keyword (case-insensitive prefix
match, then trim). -/
def consumeTodayKeyword : List Str → Str → Str
  | [], s => s
  | w :: ws, s =>
    if (toLowerStr s).take w.length = w then trimStr (s.drop w.length)
    else consumeTodayKeyword ws s

/-- The working date and remaining text of `_parseDate` after the
today-keyword and absolute-date stages (for a non-empty date shortcut). -/
def afterTodayAbsolute (cfg : Config) (dateShortcut : Str) : Int × Str :=
  let base := setUTCHours cfg.fromDate 0 0 0 0
  let rem1 := consumeTodayKeyword (sortedTodayWords cfg.locale) dateShortcut
  match _tryParseAbsoluteDate cfg rem1 with
  | some (d, rem2) => (d, rem2)
  | none => (base, rem1)

/-- `_parseDate`. -/
def _parseDate (cfg : Config) (dateShortcut : Str) : Except ParseError Int :=
  if dateShortcut = [] then .ok cfg.fromDate
  else
    let (currentDate, remaining) := afterTodayAbsolute cfg dateShortcut
    let workdayAdjust := (trimStr remaining).getLast? = some '.'
    let rem3 := if workdayAdjust then (trimStr remaining).dropLast else remaining
    match _applyRelativeParts cfg.locale currentDate rem3 with
    | .error e => .error e
    | .ok date2 => .ok (if workdayAdjust then _findClosestWorkday date2 else date2)

/-- `_applyTime`: explicit time, else configured default, else leave
unchanged. -/
def _applyTime (cfg : Config) (date : Int) (timeInfo : Option TimeInfo) : Int :=
  match timeInfo with
  | some ti => setUTCHours date ti.hour ti.minute ti.second 0
  | none =>
    match cfg.defaultTime with
    | some ti => setUTCHours date ti.hour ti.minute ti.second 0
    | none => date

/-- `parse`. -/
def parse (cfg : Config) (shortcut : Str) : Except ParseError Int :=
  let trimmed := trimStr shortcut
  if trimmed = [] then .error .emptyShortcut
  else
    match _extractTime cfg.locale trimmed with
    | .error e => .error e
    | .ok (timeInfo, dateShortcut) =>
      match _parseDate cfg dateShortcut with
      | .error e => .error e
      | .ok date => .ok (_applyTime cfg date timeInfo)

/-! ## Month-boundary and field lemmas -/

/-- The day after the last day of a month is the first of the next month. -/
theorem daysFromCivil_succ_month (y m : Int) (h0 : 0 ≤ m) (h1 : m ≤ 11) :
    daysFromCivil y m (daysInMonthT y m + 1)
      = daysFromCivil (y + (m + 1) / 12) ((m + 1) % 12) 1 := by
  unfold daysInMonthT daysFromCivil
  interval_cases m <;> norm_num
  · -- February: leap analysis and the shifted-year boundary
    unfold isLeap
    split_ifs <;> omega

/-- `daysInMonthJS y m`: how `src/index.ts` measures a month,
`new Date(Date.UTC(y, m + 1, 0)).getUTCDate()`. -/
def daysInMonthJS (y m : Int) : Int := getUTCDate (dateUTC y (m + 1) 0)

theorem daysInMonthT_pos (y m : Int) : 1 ≤ daysInMonthT y m := by
  unfold daysInMonthT; split_ifs <;> norm_num

/-- The JavaScript month measurement agrees with the table, up to the
`MakeFullYear` reinterpretation of years 0..99. -/
theorem daysInMonthJS_eq (y m : Int) (h0 : 0 ≤ m) (h1 : m ≤ 11) :
    daysInMonthJS y m = daysInMonthT (makeFullYear y) m := by
  have hv : Civil.Valid (makeFullYear y) m (daysInMonthT (makeFullYear y) m) :=
    ⟨h0, h1, daysInMonthT_pos _ _, le_refl _⟩
  have hsucc := daysFromCivil_succ_month (makeFullYear y) m h0 h1
  have hlin := daysFromCivil_linear (makeFullYear y) (m + 1) 0
  have hlin2 := daysFromCivil_linear (makeFullYear y) m (daysInMonthT (makeFullYear y) m + 1)
  have hlin3 := daysFromCivil_linear (makeFullYear y) m (daysInMonthT (makeFullYear y) m)
  have hmk : makeDay (makeFullYear y) (m + 1) 0
      = daysFromCivil (makeFullYear y) m (daysInMonthT (makeFullYear y) m) := by
    unfold makeDay
    rcases lt_or_ge m 11 with hm | hm
    · rw [show makeFullYear y + (m + 1) / 12 = makeFullYear y by omega]
      rw [show (m + 1) % 12 = m + 1 by omega]
      rw [hlin]
      rw [show makeFullYear y + (m + 1) / 12 = makeFullYear y by omega,
        show (m + 1) % 12 = m + 1 by omega] at hsucc
      omega
    · have hm11 : m = 11 := by omega
      subst hm11
      norm_num at hsucc ⊢
      rw [daysFromCivil_linear (makeFullYear y + 1) 0 0]
      omega
  unfold daysInMonthJS dateUTC
  rw [hmk]
  unfold getUTCDate mkMs
  rw [show daysFromCivil (makeFullYear y) m (daysInMonthT (makeFullYear y) m) * 86400000 + 0
      = mkMs (daysFromCivil (makeFullYear y) m (daysInMonthT (makeFullYear y) m)) 0 from rfl]
  rw [(jsDay_mkMs _ 0 (by norm_num) (by norm_num)).1]
  rw [civilFromDays_daysFromCivil _ _ _ hv]

/-- The `MakeFullYear` shift changes a month length only for February of
year 0 (year 0 is a leap year, 1900 is not). -/
theorem daysInMonthT_makeFullYear (y m : Int) (h : ¬(y = 0 ∧ m = 1)) :
    daysInMonthT (makeFullYear y) m = daysInMonthT y m := by
  unfold makeFullYear daysInMonthT isLeap
  split_ifs <;> omega

/-- Field/time-of-day characterisation of a date built from a valid civil
triple. -/
theorem fields_mkMs (y m d tod : Int) (hv : Civil.Valid y m d)
    (h0 : 0 ≤ tod) (h1 : tod < 86400000) :
    getUTCFullYear (mkMs (daysFromCivil y m d) tod) = y ∧
    getUTCMonth (mkMs (daysFromCivil y m d) tod) = m ∧
    getUTCDate (mkMs (daysFromCivil y m d) tod) = d ∧
    timeWithinDay (mkMs (daysFromCivil y m d) tod) = tod := by
  obtain ⟨hj, ht⟩ := jsDay_mkMs (daysFromCivil y m d) tod h0 h1
  unfold getUTCFullYear getUTCMonth getUTCDate
  rw [hj, ht, civilFromDays_daysFromCivil _ _ _ hv]
  exact ⟨rfl, rfl, rfl, rfl⟩

/-! ## Claim C3: the closest-workday adjustment -/

/-- **C3.**  The closest-workday adjustment is total and: a Saturday moves
exactly one day back (to a Friday), a Sunday exactly one day forward (to a
Monday), and every Monday-through-Friday time value is a fixed point. -/
theorem C3_closest_workday (t : Int) :
    (getUTCDay t = 6 →
      _findClosestWorkday t = t - 86400000 ∧ getUTCDay (_findClosestWorkday t) = 5) ∧
    (getUTCDay t = 0 →
      _findClosestWorkday t = t + 86400000 ∧ getUTCDay (_findClosestWorkday t) = 1) ∧
    (1 ≤ getUTCDay t ∧ getUTCDay t ≤ 5 → _findClosestWorkday t = t) := by
  have h1 := setUTCDate_eq t (getUTCDate t - 1)
  have h2 := setUTCDate_eq t (getUTCDate t + 1)
  unfold mkMs timeWithinDay jsDay at h1 h2
  simp only [_findClosestWorkday]
  refine ⟨fun h => ?_, fun h => ?_, fun h => ?_⟩
  · rw [if_pos h, h1]
    unfold getUTCDay jsDay at h ⊢
    constructor <;> omega
  · rw [if_neg (by simp [h]), if_pos h, h2]
    unfold getUTCDay jsDay at h ⊢
    constructor <;> omega
  · rw [if_neg (by omega), if_neg (by omega)]

/-- Witness for C3 at concrete dates: 2024-05-18 (a Saturday),
2024-05-19 (a Sunday) and 2024-05-15 (a Wednesday), at midnight UTC. -/
theorem C3_closest_workday_witness :
    (_findClosestWorkday (mkMs (daysFromCivil 2024 4 18) 0)
        = mkMs (daysFromCivil 2024 4 18) 0 - 86400000 ∧
      getUTCDay (_findClosestWorkday (mkMs (daysFromCivil 2024 4 18) 0)) = 5) ∧
    (_findClosestWorkday (mkMs (daysFromCivil 2024 4 19) 0)
        = mkMs (daysFromCivil 2024 4 19) 0 + 86400000 ∧
      getUTCDay (_findClosestWorkday (mkMs (daysFromCivil 2024 4 19) 0)) = 1) ∧
    _findClosestWorkday (mkMs (daysFromCivil 2024 4 15) 0)
        = mkMs (daysFromCivil 2024 4 15) 0 :=
  ⟨(C3_closest_workday _).1 (by decide),
   (C3_closest_workday _).2.1 (by decide),
   (C3_closest_workday _).2.2 (by decide)⟩

/-! ## Claim C4: year-unit parts -/

theorem daysInMonthT_same_non_feb (y y' m : Int) (h : m ≠ 1) :
    daysInMonthT y m = daysInMonthT y' m := by
  unfold daysInMonthT
  rw [if_neg h, if_neg h]

/-- Field characterisation of `setUTCFullYear`: month and day are preserved
except that Feb 29 rolls over to Mar 1 when the target year is not leap. -/
theorem setUTCFullYear_fields (t Y : Int) :
    timeWithinDay (setUTCFullYear t Y) = timeWithinDay t ∧
    getUTCFullYear (setUTCFullYear t Y) = Y ∧
    (¬(getUTCMonth t = 1 ∧ getUTCDate t = 29 ∧ ¬isLeap Y) →
      getUTCMonth (setUTCFullYear t Y) = getUTCMonth t ∧
      getUTCDate (setUTCFullYear t Y) = getUTCDate t) ∧
    ((getUTCMonth t = 1 ∧ getUTCDate t = 29 ∧ ¬isLeap Y) →
      getUTCMonth (setUTCFullYear t Y) = 2 ∧
      getUTCDate (setUTCFullYear t Y) = 1) := by
  obtain ⟨⟨hm0, hm1, hd1, hd2⟩, _⟩ := fields_valid t
  obtain ⟨htod0, htod1⟩ := timeWithinDay_range t
  unfold setUTCFullYear
  rw [makeDay_of_month_range _ _ _ hm0 hm1]
  by_cases hedge : getUTCMonth t = 1 ∧ getUTCDate t = 29 ∧ ¬isLeap Y
  · obtain ⟨he1, he2, he3⟩ := hedge
    rw [he1, he2]
    have h28 : daysInMonthT Y 1 = 28 := by
      unfold daysInMonthT
      rw [if_pos rfl, if_neg he3]
    have hroll : daysFromCivil Y 1 29 = daysFromCivil Y 2 1 := by
      have := daysFromCivil_succ_month Y 1 (by norm_num) (by norm_num)
      rw [h28] at this
      norm_num at this
      exact this
    rw [hroll]
    obtain ⟨f1, f2, f3, f4⟩ := fields_mkMs Y 2 1 (timeWithinDay t)
      (by refine ⟨by norm_num, by norm_num, by norm_num, ?_⟩
          unfold daysInMonthT; norm_num) htod0 htod1
    refine ⟨f4, f1, fun hc => absurd ⟨rfl, rfl, he3⟩ hc, fun _ => ⟨f2, f3⟩⟩
  · have hvalid : Civil.Valid Y (getUTCMonth t) (getUTCDate t) := by
      refine ⟨hm0, hm1, hd1, ?_⟩
      by_cases hm : getUTCMonth t = 1
      · rw [hm]
        rw [hm] at hd2
        by_cases hl : isLeap Y
        · unfold daysInMonthT at hd2 ⊢
          rw [if_pos rfl] at hd2 ⊢
          rw [if_pos hl]
          split_ifs at hd2 <;> omega
        · have h29 : getUTCDate t ≠ 29 := by
            intro hc
            exact hedge ⟨hm, hc, hl⟩
          unfold daysInMonthT at hd2 ⊢
          rw [if_pos rfl] at hd2 ⊢
          rw [if_neg hl]
          split_ifs at hd2 <;> omega
      · rw [daysInMonthT_same_non_feb Y (getUTCFullYear t) _ hm]
        exact hd2
    obtain ⟨f1, f2, f3, f4⟩ := fields_mkMs Y (getUTCMonth t) (getUTCDate t)
      (timeWithinDay t) hvalid htod0 htod1
    exact ⟨f4, f1, fun _ => ⟨f2, f3⟩, fun hc => absurd hc hedge⟩

/-- **C4 (amended).**  A relative part whose unit resolves to `year` adds the
signed amount to the calendar year; month and day-of-month are unchanged,
except that a Feb 29 date whose target year is not a leap year lands on
Mar 1 (JavaScript `setUTCFullYear` normalises the out-of-range day). -/
theorem C4_year_part (part : Str) (sign : Option Char) (valueStr unitStr : Str) (t : Int)
    (hpm : partMatch part = some (sign, valueStr, unitStr))
    (hu : unitTypeLookup enLocale (toLowerStr unitStr) = some (str "year")) :
    _applySinglePart enLocale t part = .ok (setUTCFullYear t (getUTCFullYear t +
      (if valueStr = [] then 1 else (digitsToNat valueStr : Int)) *
        (if sign = some '-' then -1 else 1))) ∧
    (∀ a : Int, a = (if valueStr = [] then 1 else (digitsToNat valueStr : Int)) *
        (if sign = some '-' then -1 else 1) →
      getUTCFullYear (setUTCFullYear t (getUTCFullYear t + a)) = getUTCFullYear t + a ∧
      timeWithinDay (setUTCFullYear t (getUTCFullYear t + a)) = timeWithinDay t ∧
      (¬(getUTCMonth t = 1 ∧ getUTCDate t = 29 ∧ ¬isLeap (getUTCFullYear t + a)) →
        getUTCMonth (setUTCFullYear t (getUTCFullYear t + a)) = getUTCMonth t ∧
        getUTCDate (setUTCFullYear t (getUTCFullYear t + a)) = getUTCDate t) ∧
      ((getUTCMonth t = 1 ∧ getUTCDate t = 29 ∧ ¬isLeap (getUTCFullYear t + a)) →
        getUTCMonth (setUTCFullYear t (getUTCFullYear t + a)) = 2 ∧
        getUTCDate (setUTCFullYear t (getUTCFullYear t + a)) = 1)) := by
  constructor
  · simp only [_applySinglePart, hpm, hu]
    simp +decide
  · intro a ha
    obtain ⟨g1, g2, g3, g4⟩ := setUTCFullYear_fields t (getUTCFullYear t + a)
    exact ⟨g2, g1, g3, g4⟩

/-- Witness for C4: the year part `"1y"` applied to 2024-03-15 midnight. -/
theorem C4_year_part_witness :
    _applySinglePart enLocale (mkMs (daysFromCivil 2024 2 15) 0) (str "1y")
      = .ok (setUTCFullYear (mkMs (daysFromCivil 2024 2 15) 0)
          (getUTCFullYear (mkMs (daysFromCivil 2024 2 15) 0) +
            (if str "1" = ([] : Str) then 1 else (digitsToNat (str "1") : Int)) *
              (if (none : Option Char) = some '-' then -1 else 1))) :=
  (C4_year_part (str "1y") none (str "1") (str "y")
    (mkMs (daysFromCivil 2024 2 15) 0) (by decide) (by decide)).1

/-- Counterexample to C4 as stated: applying `"1y"` to 2024-02-29 yields
2025-03-01 — the month and day fields change. -/
theorem C4_counterexample :
    _applySinglePart enLocale (mkMs (daysFromCivil 2024 1 29) 0) (str "1y")
      = .ok (mkMs (daysFromCivil 2025 2 1) 0) ∧
    getUTCMonth (mkMs (daysFromCivil 2024 1 29) 0) = 1 ∧
    getUTCDate (mkMs (daysFromCivil 2024 1 29) 0) = 29 ∧
    getUTCMonth (mkMs (daysFromCivil 2025 2 1) 0) = 2 ∧
    getUTCDate (mkMs (daysFromCivil 2025 2 1) 0) = 1 := by
  refine ⟨by decide, by decide, by decide, by decide, by decide⟩

/-! ## Claim C1: month-unit parts and end-of-month clamping -/

theorem daysInMonthT_mfy_le (y m : Int) :
    daysInMonthT (makeFullYear y) m ≤ daysInMonthT y m := by
  unfold makeFullYear daysInMonthT isLeap
  split_ifs <;> omega

/-- `setUTCDate` to a day that is valid for the current month: value and
fields. -/
theorem setUTCDate_fields (t n : Int) (h1 : 1 ≤ n)
    (h2 : n ≤ daysInMonthT (getUTCFullYear t) (getUTCMonth t)) :
    setUTCDate t n
      = mkMs (daysFromCivil (getUTCFullYear t) (getUTCMonth t) n) (timeWithinDay t) ∧
    getUTCFullYear (setUTCDate t n) = getUTCFullYear t ∧
    getUTCMonth (setUTCDate t n) = getUTCMonth t ∧
    getUTCDate (setUTCDate t n) = n ∧
    timeWithinDay (setUTCDate t n) = timeWithinDay t := by
  obtain ⟨⟨hm0, hm1, _, _⟩, _⟩ := fields_valid t
  obtain ⟨htod0, htod1⟩ := timeWithinDay_range t
  have hval : setUTCDate t n
      = mkMs (daysFromCivil (getUTCFullYear t) (getUTCMonth t) n) (timeWithinDay t) := by
    unfold setUTCDate
    rw [makeDay_of_month_range _ _ _ hm0 hm1]
  obtain ⟨f1, f2, f3, f4⟩ := fields_mkMs (getUTCFullYear t) (getUTCMonth t) n
    (timeWithinDay t) ⟨hm0, hm1, h1, h2⟩ htod0 htod1
  rw [hval]
  exact ⟨rfl, f1, f2, f3, f4⟩

/-- The month branch, characterised: set the day to 1, shift the month
(rolling years), and clamp the day to `min(originalDay, daysInTargetMonth)`
where the target month is measured through `Date.UTC` (hence
`makeFullYear`). -/
theorem monthShift_eq (t a : Int) :
    monthShift t a
      = mkMs
          (daysFromCivil (getUTCFullYear t + (getUTCMonth t + a) / 12)
            ((getUTCMonth t + a) % 12)
            (min (getUTCDate t)
              (daysInMonthT (makeFullYear (getUTCFullYear t + (getUTCMonth t + a) / 12))
                ((getUTCMonth t + a) % 12))))
          (timeWithinDay t) ∧
    getUTCFullYear (monthShift t a) = getUTCFullYear t + (getUTCMonth t + a) / 12 ∧
    getUTCMonth (monthShift t a) = (getUTCMonth t + a) % 12 ∧
    getUTCDate (monthShift t a)
      = min (getUTCDate t)
          (daysInMonthT (makeFullYear (getUTCFullYear t + (getUTCMonth t + a) / 12))
            ((getUTCMonth t + a) % 12)) ∧
    timeWithinDay (monthShift t a) = timeWithinDay t := by
  obtain ⟨⟨hm0, hm1, hd1, hd2⟩, _⟩ := fields_valid t
  obtain ⟨htod0, htod1⟩ := timeWithinDay_range t
  obtain ⟨s1val, s1y, s1m, s1d, s1tod⟩ := setUTCDate_fields t 1 le_rfl (daysInMonthT_pos _ _)
  have hd2val : setUTCMonth (setUTCDate t 1) (getUTCMonth (setUTCDate t 1) + a)
      = mkMs (daysFromCivil (getUTCFullYear t + (getUTCMonth t + a) / 12)
          ((getUTCMonth t + a) % 12) 1) (timeWithinDay t) := by
    unfold setUTCMonth
    rw [s1y, s1m, s1d, s1tod]
    rfl
  have hMv : Civil.Valid (getUTCFullYear t + (getUTCMonth t + a) / 12)
      ((getUTCMonth t + a) % 12) 1 :=
    ⟨by omega, by omega, le_rfl, daysInMonthT_pos _ _⟩
  obtain ⟨g1, g2, g3, g4⟩ := fields_mkMs _ _ _ _ hMv htod0 htod1
  have hdim : getUTCDate (dateUTC (getUTCFullYear t + (getUTCMonth t + a) / 12)
        ((getUTCMonth t + a) % 12 + 1) 0)
      = daysInMonthT (makeFullYear (getUTCFullYear t + (getUTCMonth t + a) / 12))
        ((getUTCMonth t + a) % 12) :=
    daysInMonthJS_eq _ _ (by omega) (by omega)
  obtain ⟨f1, f2, f3, f4, f5⟩ := setUTCDate_fields
    (mkMs (daysFromCivil (getUTCFullYear t + (getUTCMonth t + a) / 12)
      ((getUTCMonth t + a) % 12) 1) (timeWithinDay t))
    (min (getUTCDate t)
      (daysInMonthT (makeFullYear (getUTCFullYear t + (getUTCMonth t + a) / 12))
        ((getUTCMonth t + a) % 12)))
    (by
      have := daysInMonthT_pos
        (makeFullYear (getUTCFullYear t + (getUTCMonth t + a) / 12))
        ((getUTCMonth t + a) % 12)
      omega)
    (by
      rw [g1, g2]
      have := daysInMonthT_mfy_le (getUTCFullYear t + (getUTCMonth t + a) / 12)
        ((getUTCMonth t + a) % 12)
      omega)
  rw [g1, g2, g4] at f1
  rw [g1] at f2
  rw [g2] at f3
  rw [g4] at f5
  simp only [monthShift]
  rw [hd2val, g1, g2, hdim]
  exact ⟨f1, f2, f3, f4, f5⟩

theorem applySinglePart_plus1m (X : Int) :
    _applySinglePart enLocale X (str "+1m") = .ok (monthShift X 1) := by
  have h1 : partMatch (str "+1m") = some (some '+', str "1", str "m") := by decide
  have h2 : unitTypeLookup enLocale (toLowerStr (str "m")) = some (str "month") := by decide
  simp only [_applySinglePart, h1, h2]
  simp +decide [show ((digitsToNat (str "1") : Int) = 1) from by decide]

/-- **C1 (amended).**  A month-unit part records the day-of-month, moves to
the 1st, shifts the month field (rolling years through `(m+a) div/mod 12`),
measures the target month through `Date.UTC` — which reinterprets target
years 0..99 as 1900..1999 (`makeFullYear`); this changes the measured length
only for February of year 0 — and sets the day to
`min(originalDay, daysInTargetMonth)`.  In particular `"+1m"` from Jan 31 of
a year `y ≠ 0` lands on Feb 29 in a leap year and Feb 28 otherwise, and from
day 31 of a 31-day month followed by a 30-day month it lands on day 30. -/
theorem C1_month_clamping (part : Str) (sign : Option Char) (valueStr unitStr : Str) (t : Int)
    (hpm : partMatch part = some (sign, valueStr, unitStr))
    (hu : unitTypeLookup enLocale (toLowerStr unitStr) = some (str "month")) :
    (_applySinglePart enLocale t part = .ok (monthShift t
        ((if valueStr = [] then 1 else (digitsToNat valueStr : Int)) *
          (if sign = some '-' then -1 else 1)))) ∧
    (∀ a : Int,
      getUTCFullYear (monthShift t a) = getUTCFullYear t + (getUTCMonth t + a) / 12 ∧
      getUTCMonth (monthShift t a) = (getUTCMonth t + a) % 12 ∧
      getUTCDate (monthShift t a)
        = min (getUTCDate t)
            (daysInMonthT (makeFullYear (getUTCFullYear t + (getUTCMonth t + a) / 12))
              ((getUTCMonth t + a) % 12)) ∧
      timeWithinDay (monthShift t a) = timeWithinDay t) ∧
    (∀ y tod : Int, y ≠ 0 → 0 ≤ tod → tod < 86400000 →
      _applySinglePart enLocale (mkMs (daysFromCivil y 0 31) tod) (str "+1m")
        = .ok (mkMs (daysFromCivil y 1 (if isLeap y then 29 else 28)) tod)) ∧
    (∀ y tod m : Int, (m = 2 ∨ m = 4 ∨ m = 7 ∨ m = 9) → 0 ≤ tod → tod < 86400000 →
      _applySinglePart enLocale (mkMs (daysFromCivil y m 31) tod) (str "+1m")
        = .ok (mkMs (daysFromCivil y (m + 1) 30) tod)) := by
  refine ⟨?_, fun a => ⟨(monthShift_eq t a).2.1, (monthShift_eq t a).2.2.1,
    (monthShift_eq t a).2.2.2.1, (monthShift_eq t a).2.2.2.2⟩, ?_, ?_⟩
  · simp only [_applySinglePart, hpm, hu]
    norm_num
    rw [if_neg (by decide), if_neg (by decide)]
  · intro y tod hy htod0 htod1
    rw [applySinglePart_plus1m]
    have hval : Civil.Valid y 0 31 := by
      refine ⟨by norm_num, by norm_num, by norm_num, ?_⟩
      unfold daysInMonthT; norm_num
    obtain ⟨g1, g2, g3, g4⟩ := fields_mkMs y 0 31 tod hval htod0 htod1
    have hm := (monthShift_eq (mkMs (daysFromCivil y 0 31) tod) 1).1
    rw [g1, g2, g3, g4] at hm
    rw [show (0 : Int) + 1 = 1 from by norm_num] at hm
    rw [show (1 : Int) / 12 = 0 from by norm_num, show (1 : Int) % 12 = 1 from by norm_num,
      add_zero] at hm
    rw [daysInMonthT_makeFullYear y 1 (fun hc => hy hc.1)] at hm
    have hdim : daysInMonthT y 1 = if isLeap y then 29 else 28 := by
      unfold daysInMonthT; rw [if_pos rfl]
    rw [hdim] at hm
    rw [min_eq_right (by split_ifs <;> norm_num)] at hm
    exact congrArg Except.ok hm
  · intro y tod m hm31 htod0 htod1
    rw [applySinglePart_plus1m]
    have hval : Civil.Valid y m 31 := by
      refine ⟨by omega, by omega, by norm_num, ?_⟩
      unfold daysInMonthT
      rw [if_neg (by omega), if_neg (by omega)]
    obtain ⟨g1, g2, g3, g4⟩ := fields_mkMs y m 31 tod hval htod0 htod1
    have hm := (monthShift_eq (mkMs (daysFromCivil y m 31) tod) 1).1
    rw [g1, g2, g3, g4] at hm
    rw [show (m + 1) / 12 = 0 from by omega, show (m + 1) % 12 = m + 1 from by omega,
      add_zero] at hm
    rw [daysInMonthT_makeFullYear y (m + 1) (fun hc => by omega)] at hm
    have hdim : daysInMonthT y (m + 1) = 30 := by
      unfold daysInMonthT
      rw [if_neg (by omega), if_pos (by omega)]
    rw [hdim] at hm
    rw [min_eq_right (by norm_num)] at hm
    exact congrArg Except.ok hm

/-- Witness for C1: `"2m"` applied to 2024-05-15 midnight takes the month
branch. -/
theorem C1_month_clamping_witness :
    _applySinglePart enLocale (mkMs (daysFromCivil 2024 4 15) 0) (str "2m")
      = .ok (monthShift (mkMs (daysFromCivil 2024 4 15) 0)
          ((if str "2" = ([] : Str) then 1 else (digitsToNat (str "2") : Int)) *
            (if (none : Option Char) = some '-' then -1 else 1))) :=
  (C1_month_clamping (str "2m") none (str "2") (str "m")
    (mkMs (daysFromCivil 2024 4 15) 0) (by decide) (by decide)).1

/-- Counterexample to C1 as stated: from Jan 31 of year 0 (a leap year),
`"+1m"` lands on Feb 28, not on `min(31, daysInFebruary) = 29` — `Date.UTC`
measures February of year 1900 instead. -/
theorem C1_counterexample :
    _applySinglePart enLocale (mkMs (daysFromCivil 0 0 31) 0) (str "+1m")
      = .ok (mkMs (daysFromCivil 0 1 28) 0) ∧
    daysInMonthT 0 1 = 29 ∧
    getUTCDate (mkMs (daysFromCivil 0 1 28) 0) = 28 ∧
    (Except.ok (mkMs (daysFromCivil 0 1 28) 0) : Except ParseError Int)
      ≠ .ok (mkMs (daysFromCivil 0 1 (min 31 (daysInMonthT 0 1))) 0) := by
  exact ⟨by decide, by decide, by decide, by decide⟩

/-! ## Claim C2: the nth-weekday-of-month search -/

/-- Spec-side predicate (from the spec's words): a business day is a
Monday-through-Friday day (weekday index excludes the two weekend values). -/
def isBusinessDay (year month day : Int) : Prop :=
  0 < getUTCDay (dateUTC year month day) ∧ getUTCDay (dateUTC year month day) < 6

instance (year month day : Int) : Decidable (isBusinessDay year month day) := by
  unfold isBusinessDay; infer_instance

/-- Spec-side list (from the spec's words): the business days of the month,
in ascending day order. -/
def specBusinessDays (year month : Int) : List Int :=
  (intRange1 (daysInMonthT year month).toNat).filter
    (fun day => decide (isBusinessDay year month day))

/-- The search loop returns the `(n - count)`-th business day of the
remaining day list (1-indexed), as a mapped lookup into the filtered list. -/
theorem findNthWeekdayAux_eq (year month n : Int) (days : List Int) (count : Int)
    (hn : count < n) :
    _findNthWeekdayAux year month n days count
      = ((days.filter (fun day => decide (isBusinessDay year month day)))[(n - count - 1).toNat]?).map
          (dateUTC year month) := by
  induction days generalizing count with
  | nil => simp [_findNthWeekdayAux]
  | cons day rest ih =>
    by_cases hb : isBusinessDay year month day
    · obtain ⟨hb1, hb2⟩ := hb
      by_cases heq : count + 1 = n
      · have hidx : (n - count - 1).toNat = 0 := by omega
        simp only [_findNthWeekdayAux]
        rw [if_pos ⟨hb1, hb2⟩, if_pos heq, List.filter_cons,
          if_pos (by simp [isBusinessDay, hb1, hb2]), hidx]
        simp
      · have hlt : count + 1 < n := by omega
        have hidx : (n - count - 1).toNat = (n - (count + 1) - 1).toNat + 1 := by omega
        simp only [_findNthWeekdayAux]
        rw [if_pos ⟨hb1, hb2⟩, if_neg heq, ih (count + 1) hlt, List.filter_cons,
          if_pos (by simp [isBusinessDay, hb1, hb2]), hidx]
        simp
    · simp only [_findNthWeekdayAux]
      rw [if_neg (show ¬(0 < getUTCDay (dateUTC year month day) ∧
          getUTCDay (dateUTC year month day) < 6) from hb),
        ih count hn, List.filter_cons, if_neg (by simpa [isBusinessDay] using hb)]

theorem makeFullYear_id (y : Int) (h : ¬(0 ≤ y ∧ y ≤ 99)) : makeFullYear y = y := by
  unfold makeFullYear; rw [if_neg h]

/-- **C2 (amended).**  For a date whose year is outside 0..99 and an ordinal
`n ≥ 1`, the nth-weekday search enumerates the business days of the date's
month (ascending, or descending when `fromEnd`), returns the `n`-th such day
and fails with `WeekdayNotFoundError n` exactly when there are fewer than
`n`. -/
theorem C2_nth_weekday (t n : Int) (fromEnd : Bool)
    (hy : ¬(0 ≤ getUTCFullYear t ∧ getUTCFullYear t ≤ 99)) (hn : 1 ≤ n) :
    _findNthWeekday t n fromEnd
      = match (if fromEnd then (specBusinessDays (getUTCFullYear t) (getUTCMonth t)).reverse
          else specBusinessDays (getUTCFullYear t) (getUTCMonth t))[(n - 1).toNat]? with
        | some day => .ok (dateUTC (getUTCFullYear t) (getUTCMonth t) day)
        | none => .error (.weekdayNotFound n) := by
  obtain ⟨⟨hm0, hm1, _, _⟩, _⟩ := fields_valid t
  have hdim : getUTCDate (dateUTC (getUTCFullYear t) (getUTCMonth t + 1) 0)
      = daysInMonthT (getUTCFullYear t) (getUTCMonth t) := by
    rw [show getUTCDate (dateUTC (getUTCFullYear t) (getUTCMonth t + 1) 0)
        = daysInMonthJS (getUTCFullYear t) (getUTCMonth t) from rfl,
      daysInMonthJS_eq _ _ hm0 hm1, makeFullYear_id _ hy]
  simp only [_findNthWeekday]
  rw [hdim]
  have haux := findNthWeekdayAux_eq (getUTCFullYear t) (getUTCMonth t) n
    (if fromEnd then (intRange1 (daysInMonthT (getUTCFullYear t) (getUTCMonth t)).toNat).reverse
      else intRange1 (daysInMonthT (getUTCFullYear t) (getUTCMonth t)).toNat) 0 (by omega)
  rw [haux]
  have hfil : (if fromEnd
        then (intRange1 (daysInMonthT (getUTCFullYear t) (getUTCMonth t)).toNat).reverse
        else intRange1 (daysInMonthT (getUTCFullYear t) (getUTCMonth t)).toNat).filter
          (fun day => decide (isBusinessDay (getUTCFullYear t) (getUTCMonth t) day))
      = (if fromEnd then (specBusinessDays (getUTCFullYear t) (getUTCMonth t)).reverse
          else specBusinessDays (getUTCFullYear t) (getUTCMonth t)) := by
    unfold specBusinessDays
    cases fromEnd
    · simp
    · simp [List.filter_reverse]
  rw [hfil]
  rw [show n - 0 - 1 = n - 1 by ring]
  cases (if fromEnd then (specBusinessDays (getUTCFullYear t) (getUTCMonth t)).reverse
      else specBusinessDays (getUTCFullYear t) (getUTCMonth t))[(n - 1).toNat]? <;> rfl

/-- Witness for C2: the 1st business day of February 2025 from the start is
Feb 3, and from the end is Feb 28; the 21st fails (20 business days). -/
theorem C2_nth_weekday_witness :
    _findNthWeekday (mkMs (daysFromCivil 2025 1 10) 0) 1 false
      = .ok (dateUTC 2025 1 3) ∧
    _findNthWeekday (mkMs (daysFromCivil 2025 1 10) 0) 1 true
      = .ok (dateUTC 2025 1 28) ∧
    _findNthWeekday (mkMs (daysFromCivil 2025 1 10) 0) 21 false
      = .error (.weekdayNotFound 21) := by
  refine ⟨?_, ?_, ?_⟩
  · rw [C2_nth_weekday _ 1 false (by decide) (by decide)]
    decide
  · rw [C2_nth_weekday _ 1 true (by decide) (by decide)]
    decide
  · rw [C2_nth_weekday _ 21 false (by decide) (by decide)]
    decide

/-- Counterexample to C2 as stated: for a date in June of year 50, the
search returns the first business day of June **1950** (`Date.UTC`
reinterprets the year), which is not a day of the input's month. -/
theorem C2_counterexample :
    getUTCFullYear (mkMs (daysFromCivil 50 5 15) 0) = 50 ∧
    _findNthWeekday (mkMs (daysFromCivil 50 5 15) 0) 1 false
      = .ok (mkMs (daysFromCivil 1950 5 1) 0) ∧
    getUTCFullYear (mkMs (daysFromCivil 1950 5 1) 0) = 1950 := by
  exact ⟨by decide, by decide, by decide⟩

/-! ## Claim C5: AM/PM hour handling -/

/-- **C5.**  For a trailing time expression that matched with an AM/PM
marker: a written hour outside [1,12] fails with `InvalidAmPmHourError`;
hour 12 with PM stays 12, hour 12 with AM becomes 0, hours 1–11 with PM gain
12.  In particular `"12am"` → hour 0, `"12pm"` → hour 12, and `"0am"` /
`"13pm"` fail with the hour-range error (also through `parse`). -/
theorem C5_ampm_hours (s pre ts mkraw : Str) (h0 mi se : Int)
    (hscan : scanTime (enLocale.am ++ enLocale.pm) s = some (pre, ts, some mkraw))
    (hc0 : ((List.splitOn ':' ts).map jsNumber).get? 0 = some (some h0))
    (hmi : (((List.splitOn ':' ts).map jsNumber).get? 1).getD (some 0) = some mi)
    (hse : (((List.splitOn ':' ts).map jsNumber).get? 2).getD (some 0) = some se)
    (hmi0 : 0 ≤ mi) (hmi59 : mi ≤ 59) (hse0 : 0 ≤ se) (hse59 : se ≤ 59) :
    ((h0 < 1 ∨ h0 > 12) → _extractTime enLocale s = .error (.invalidAmPmHour h0)) ∧
    (1 ≤ h0 → h0 ≤ 12 →
      _extractTime enLocale s = .ok (some ⟨(if toLowerStr mkraw ∈ enLocale.pm then
          (if h0 < 12 then h0 + 12 else 12)
        else (if h0 = 12 then 0 else h0)), mi, se⟩, trimStr pre)) ∧
    (_extractTime enLocale (str "12am") = .ok (some ⟨0, 0, 0⟩, []) ∧
      _extractTime enLocale (str "12pm") = .ok (some ⟨12, 0, 0⟩, []) ∧
      _extractTime enLocale (str "0am") = .error (.invalidAmPmHour 0) ∧
      _extractTime enLocale (str "13pm") = .error (.invalidAmPmHour 13)) ∧
    (∀ fromDate : Int, ∀ dt : Option TimeInfo,
      parse ⟨fromDate, enLocale, dt⟩ (str "0am") = .error (.invalidAmPmHour 0) ∧
      parse ⟨fromDate, enLocale, dt⟩ (str "13pm") = .error (.invalidAmPmHour 13)) := by
  refine ⟨?_, ?_, ⟨by decide, by decide, by decide, by decide⟩, ?_⟩
  · intro hrange
    simp only [_extractTime, hscan, Option.map_some', hc0, hmi, hse,
      Option.getD_some, Option.isNone_some]
    rw [if_neg (by simp only [Bool.false_eq_true, false_or]; omega)]
    rw [if_pos hrange]
  · intro hlo hhi
    simp only [_extractTime, hscan, Option.map_some', hc0, hmi, hse,
      Option.getD_some, Option.isNone_some]
    rw [if_neg (by simp only [Bool.false_eq_true, false_or]; omega)]
    have hA : ¬(h0 < 1 ∨ h0 > 12) := by omega
    rw [if_neg hA]
    by_cases hpm : toLowerStr mkraw ∈ enLocale.pm
    · by_cases h12 : h0 < 12
      · have hhour : (if toLowerStr mkraw ∈ enLocale.pm ∧ h0 < 12 then h0 + 12
            else if toLowerStr mkraw ∉ enLocale.pm ∧ h0 = 12 then 0 else h0) = h0 + 12 :=
          if_pos ⟨hpm, h12⟩
        have hfc : ¬(h0 + 12 < 0 ∨ h0 + 12 > 23) := by omega
        rw [hhour, if_neg hfc, if_pos hpm, if_pos h12]
      · have hhour : (if toLowerStr mkraw ∈ enLocale.pm ∧ h0 < 12 then h0 + 12
            else if toLowerStr mkraw ∉ enLocale.pm ∧ h0 = 12 then 0 else h0) = h0 := by
          rw [if_neg (fun hc => h12 hc.2), if_neg (fun hc => hc.1 hpm)]
        have hfc : ¬(h0 < 0 ∨ h0 > 23) := by omega
        have h0eq : h0 = 12 := by omega
        rw [hhour, if_neg hfc, if_pos hpm, if_neg h12, h0eq]
    · by_cases h12 : h0 = 12
      · have hhour : (if toLowerStr mkraw ∈ enLocale.pm ∧ h0 < 12 then h0 + 12
            else if toLowerStr mkraw ∉ enLocale.pm ∧ h0 = 12 then 0 else h0) = 0 := by
          rw [if_neg (fun hc => hpm hc.1), if_pos ⟨hpm, h12⟩]
        have hfc : ¬((0 : Int) < 0 ∨ (0 : Int) > 23) := by omega
        rw [hhour, if_neg hfc, if_neg hpm, if_pos h12]
      · have hhour : (if toLowerStr mkraw ∈ enLocale.pm ∧ h0 < 12 then h0 + 12
            else if toLowerStr mkraw ∉ enLocale.pm ∧ h0 = 12 then 0 else h0) = h0 := by
          rw [if_neg (fun hc => hpm hc.1), if_neg (fun hc => h12 hc.2)]
        have hfc : ¬(h0 < 0 ∨ h0 > 23) := by omega
        rw [hhour, if_neg hfc, if_neg hpm, if_neg h12]
  · intro fromDate dt
    constructor
    · simp only [parse]
      rw [show trimStr (str "0am") = str "0am" from by decide]
      rw [if_neg (by decide)]
      rw [show _extractTime enLocale (str "0am") = .error (.invalidAmPmHour 0) from by decide]
    · simp only [parse]
      rw [show trimStr (str "13pm") = str "13pm" from by decide]
      rw [if_neg (by decide)]
      rw [show _extractTime enLocale (str "13pm") = .error (.invalidAmPmHour 13) from by decide]

/-- Witness for C5 at `"5:30pm"`: hour 5 with a PM marker becomes 17:30. -/
theorem C5_ampm_hours_witness :
    _extractTime enLocale (str "5:30pm")
      = .ok (some ⟨(if toLowerStr (str "pm") ∈ enLocale.pm then
          (if (5 : Int) < 12 then 5 + 12 else 12)
        else (if (5 : Int) = 12 then 0 else 5)), 30, 0⟩, trimStr []) :=
  ((C5_ampm_hours (str "5:30pm") [] (str "5:30") (str "pm") 5 30 0
    (by decide) (by decide) (by decide) (by decide)
    (by decide) (by decide) (by decide) (by decide)).2.1) (by decide) (by decide)

/-! ## Claim C7: time-only inputs keep the reference date -/

theorem setUTCHours_day (t h mi s : Int) (hh0 : 0 ≤ h) (hh : h ≤ 23)
    (hm0 : 0 ≤ mi) (hm : mi ≤ 59) (hs0 : 0 ≤ s) (hs : s ≤ 59) :
    jsDay (setUTCHours t h mi s 0) = jsDay t ∧
    getUTCHours (setUTCHours t h mi s 0) = h ∧
    getUTCMinutes (setUTCHours t h mi s 0) = mi ∧
    getUTCSeconds (setUTCHours t h mi s 0) = s := by
  unfold setUTCHours mkMs jsDay getUTCHours getUTCMinutes getUTCSeconds
  refine ⟨by omega, by omega, by omega, by omega⟩

/-- Any explicit time produced by `_extractTime` is range-checked: hour in
[0,23], minute and second in [0,59]. -/
theorem extractTime_ranges (loc : Localization) (s rest : Str) (ti : TimeInfo)
    (h : _extractTime loc s = .ok (some ti, rest)) :
    0 ≤ ti.hour ∧ ti.hour ≤ 23 ∧ 0 ≤ ti.minute ∧ ti.minute ≤ 59 ∧
    0 ≤ ti.second ∧ ti.second ≤ 59 := by
  cases ti with
  | mk hour minute second =>
    simp only [_extractTime] at h
    rcases hscan : scanTime (loc.am ++ loc.pm) s with _ | ⟨pre, ts, mkraw⟩ <;>
      rw [hscan] at h
    · simp at h
    · dsimp only
      rcases mkraw with _ | mk <;>
        simp only [Option.map_some', Option.map_none'] at h <;>
        split_ifs at h <;>
        first
          | exact Except.noConfusion h
          | (simp only [Except.ok.injEq, Prod.mk.injEq, Option.some.injEq,
               TimeInfo.mk.injEq] at h
             obtain ⟨⟨h1, h2, h3⟩, _⟩ := h
             subst h1 h2 h3
             simp only [not_or] at *
             omega)

/-- **C7.**  When the whole (trimmed) input is a time expression — the
date-only remainder is empty — the base date is the reference instant
unchanged (not reset to midnight), and the result carries the reference
instant's date with the extracted time of day. -/
theorem C7_time_only (cfg : Config) (s : Str) (ti : TimeInfo)
    (hne : ¬ trimStr s = [])
    (hext : _extractTime cfg.locale (trimStr s) = .ok (some ti, [])) :
    parse cfg s = .ok (setUTCHours cfg.fromDate ti.hour ti.minute ti.second 0) ∧
    getUTCFullYear (setUTCHours cfg.fromDate ti.hour ti.minute ti.second 0)
      = getUTCFullYear cfg.fromDate ∧
    getUTCMonth (setUTCHours cfg.fromDate ti.hour ti.minute ti.second 0)
      = getUTCMonth cfg.fromDate ∧
    getUTCDate (setUTCHours cfg.fromDate ti.hour ti.minute ti.second 0)
      = getUTCDate cfg.fromDate ∧
    getUTCHours (setUTCHours cfg.fromDate ti.hour ti.minute ti.second 0) = ti.hour ∧
    getUTCMinutes (setUTCHours cfg.fromDate ti.hour ti.minute ti.second 0) = ti.minute ∧
    getUTCSeconds (setUTCHours cfg.fromDate ti.hour ti.minute ti.second 0) = ti.second := by
  obtain ⟨r1, r2, r3, r4, r5, r6⟩ := extractTime_ranges cfg.locale (trimStr s) [] ti hext
  obtain ⟨d1, d2, d3, d4⟩ :=
    setUTCHours_day cfg.fromDate ti.hour ti.minute ti.second r1 r2 r3 r4 r5 r6
  refine ⟨?_, ?_, ?_, ?_, d2, d3, d4⟩
  · simp only [parse]
    rw [if_neg hne, hext]
    simp only [_parseDate, if_pos rfl]
    rfl
  · unfold getUTCFullYear
    rw [d1]
  · unfold getUTCMonth
    rw [d1]
  · unfold getUTCDate
    rw [d1]

/-- Witness for C7: `"5:30pm"` with reference 2024-05-15T10:00Z. -/
theorem C7_time_only_witness :
    parse ⟨mkMs (daysFromCivil 2024 4 15) 36000000, enLocale, none⟩ (str "5:30pm")
      = .ok (setUTCHours (mkMs (daysFromCivil 2024 4 15) 36000000) 17 30 0 0) ∧
    getUTCDate (setUTCHours (mkMs (daysFromCivil 2024 4 15) 36000000) 17 30 0 0)
      = getUTCDate (mkMs (daysFromCivil 2024 4 15) 36000000) :=
  ⟨(C7_time_only ⟨mkMs (daysFromCivil 2024 4 15) 36000000, enLocale, none⟩
      (str "5:30pm") ⟨17, 30, 0⟩ (by decide) (by decide)).1,
   (C7_time_only ⟨mkMs (daysFromCivil 2024 4 15) 36000000, enLocale, none⟩
      (str "5:30pm") ⟨17, 30, 0⟩ (by decide) (by decide)).2.2.2.1⟩

/-! ## Claim C6: repeated today-keywords are a no-op -/

/-- A relative-part token resolving to the `today` category leaves the date
unchanged. -/
theorem applySinglePart_today (X : Int) :
    _applySinglePart enLocale X (str "t") = .ok X := by
  have h1 : partMatch (str "t") = some (none, [], str "t") := by decide
  have h2 : unitTypeLookup enLocale (toLowerStr (str "t")) = some (str "today") := by decide
  simp only [_applySinglePart, h1, h2]
  rw [if_pos trivial]

theorem foldl_today (l : List Str) (X : Int) (hl : ∀ p ∈ l, p = str "t") :
    List.foldlM (_applySinglePart enLocale) X l = .ok X := by
  induction l generalizing X with
  | nil => rfl
  | cons p ps ih =>
    rw [List.foldlM_cons, hl p (by simp), applySinglePart_today]
    exact ih X (fun q hq => hl q (by simp [hq]))

set_option maxHeartbeats 2000000 in
/-- **C6.**  `"t t t t t"` parses to exactly the same timestamp as `"t"`,
for every reference instant and configured default time (en locale). -/
theorem C6_today_idempotent (fromDate : Int) (dt : Option TimeInfo) :
    parse ⟨fromDate, enLocale, dt⟩ (str "t t t t t")
      = parse ⟨fromDate, enLocale, dt⟩ (str "t") := by
  have habs4 : _tryParseAbsoluteDate ⟨fromDate, enLocale, dt⟩ (str "t t t t") = none := by
    simp only [_tryParseAbsoluteDate, tryPatterns]
    rw [show matchDatePattern ⟨'/', false⟩ (str "t t t t") = none from by decide]
  have habs0 : _tryParseAbsoluteDate ⟨fromDate, enLocale, dt⟩ [] = none := by
    simp only [_tryParseAbsoluteDate, tryPatterns]
    rw [show matchDatePattern ⟨'/', false⟩ [] = none from by decide]
  have hA5 : afterTodayAbsolute ⟨fromDate, enLocale, dt⟩ (str "t t t t t")
      = (setUTCHours fromDate 0 0 0 0, str "t t t t") := by
    simp only [afterTodayAbsolute]
    rw [show consumeTodayKeyword (sortedTodayWords enLocale) (str "t t t t t")
        = str "t t t t" from by decide, habs4]
  have hA1 : afterTodayAbsolute ⟨fromDate, enLocale, dt⟩ (str "t")
      = (setUTCHours fromDate 0 0 0 0, []) := by
    simp only [afterTodayAbsolute]
    rw [show consumeTodayKeyword (sortedTodayWords enLocale) (str "t") = [] from by decide,
      habs0]
  have hrel4 : _applyRelativeParts enLocale (setUTCHours fromDate 0 0 0 0) (str "t t t t")
      = .ok (setUTCHours fromDate 0 0 0 0) := by
    simp only [_applyRelativeParts]
    rw [if_neg (by decide)]
    rw [show rejoinSigns (splitWs (trimStr (signExpand (trimStr (str "t t t t")))))
        = [str "t", str "t", str "t", str "t"] from by decide]
    exact foldl_today _ _ (by decide)
  have hrel0 : _applyRelativeParts enLocale (setUTCHours fromDate 0 0 0 0) []
      = .ok (setUTCHours fromDate 0 0 0 0) := by
    simp only [_applyRelativeParts]
    rw [if_pos (by decide)]
  simp only [parse]
  rw [show trimStr (str "t t t t t") = str "t t t t t" from by decide,
    show trimStr (str "t") = str "t" from by decide]
  rw [if_neg (by decide), if_neg (by decide)]
  rw [show _extractTime enLocale (str "t t t t t") = .ok (none, str "t t t t t") from by decide,
    show _extractTime enLocale (str "t") = .ok (none, str "t") from by decide]
  simp only [_parseDate]
  rw [if_neg (show ¬(str "t t t t t" = []) from by decide),
    if_neg (show ¬(str "t" = []) from by decide)]
  simp only [hA5, hA1]
  rw [if_neg (show ¬((trimStr (str "t t t t")).getLast? = some '.') from by decide),
    if_neg (show ¬((trimStr ([] : Str)).getLast? = some '.') from by decide)]
  rw [hrel4, hrel0]
  dsimp only
  rw [if_neg (show ¬((trimStr (str "t t t t")).getLast? = some '.') from by decide),
    if_neg (show ¬((trimStr ([] : Str)).getLast? = some '.') from by decide)]

/-! ## Claim C10: the workday marker forces a Monday-Friday result -/

/-- Consuming a today keyword from the empty string yields the empty
string, for any keyword list. -/
theorem consumeToday_nil (ws : List Str) : consumeTodayKeyword ws [] = [] := by
  induction ws with
  | nil => rfl
  | cons w ws ih =>
    simp only [consumeTodayKeyword]
    split_ifs with h
    · simp [trimStr]
    · exact ih

/-- No absolute-date pattern matches the empty string. -/
theorem tryPatterns_nil (cfg : Config) (ps : List DatePattern) :
    tryPatterns cfg [] ps = none := by
  induction ps with
  | nil => rfl
  | cons p ps ih =>
    simp only [tryPatterns]
    exact ih

/-- The closest-workday adjustment always lands on a weekday 1-5
(Monday-Friday). -/
theorem closestWorkday_weekday_range (t : Int) :
    1 ≤ getUTCDay (_findClosestWorkday t) ∧ getUTCDay (_findClosestWorkday t) ≤ 5 := by
  have h1 := setUTCDate_eq t (getUTCDate t - 1)
  have h2 := setUTCDate_eq t (getUTCDate t + 1)
  unfold mkMs timeWithinDay jsDay at h1 h2
  simp only [_findClosestWorkday]
  by_cases h6 : getUTCDay t = 6
  · rw [if_pos h6, h1]
    unfold getUTCDay jsDay at h6 ⊢
    omega
  · rw [if_neg h6]
    by_cases h0 : getUTCDay t = 0
    · rw [if_pos h0, h2]
      unfold getUTCDay jsDay at h0 ⊢
      omega
    · rw [if_neg h0]
      unfold getUTCDay at h6 h0 ⊢
      omega

/-- `_applyTime` never changes the UTC weekday, as long as the time it
applies (explicit or configured default) is in range. -/
theorem applyTime_day (cfg : Config) (d : Int) (ti : Option TimeInfo)
    (hti : ∀ x, ti = some x →
      0 ≤ x.hour ∧ x.hour ≤ 23 ∧ 0 ≤ x.minute ∧ x.minute ≤ 59 ∧
      0 ≤ x.second ∧ x.second ≤ 59)
    (hdt : ∀ x, cfg.defaultTime = some x →
      0 ≤ x.hour ∧ x.hour ≤ 23 ∧ 0 ≤ x.minute ∧ x.minute ≤ 59 ∧
      0 ≤ x.second ∧ x.second ≤ 59) :
    getUTCDay (_applyTime cfg d ti) = getUTCDay d := by
  cases ti with
  | some x =>
    obtain ⟨a1, a2, a3, a4, a5, a6⟩ := hti x rfl
    show getUTCDay (setUTCHours d x.hour x.minute x.second 0) = getUTCDay d
    unfold getUTCDay
    rw [(setUTCHours_day d x.hour x.minute x.second a1 a2 a3 a4 a5 a6).1]
  | none =>
    simp only [_applyTime]
    cases hcd : cfg.defaultTime with
    | some x =>
      obtain ⟨a1, a2, a3, a4, a5, a6⟩ := hdt x hcd
      dsimp only
      unfold getUTCDay
      rw [(setUTCHours_day d x.hour x.minute x.second a1 a2 a3 a4 a5 a6).1]
    | none => rfl

/-- **C10.**  Whenever the date-only remainder left after time extraction,
today-keyword consumption and absolute-date matching ends with the
workday-adjustment marker `'.'`, a successful `parse` returns a timestamp
whose UTC weekday is Monday through Friday (1-5), never Saturday or
Sunday — given that the configured default time, if any, is in range. -/
theorem C10_workday_weekday (cfg : Config) (s : Str) (ti : Option TimeInfo)
    (dateOnly : Str) (result : Int)
    (hex : _extractTime cfg.locale (trimStr s) = .ok (ti, dateOnly))
    (hdot : (trimStr (afterTodayAbsolute cfg dateOnly).2).getLast? = some '.')
    (hdt : ∀ x, cfg.defaultTime = some x →
      0 ≤ x.hour ∧ x.hour ≤ 23 ∧ 0 ≤ x.minute ∧ x.minute ≤ 59 ∧
      0 ≤ x.second ∧ x.second ≤ 59)
    (hok : parse cfg s = .ok result) :
    1 ≤ getUTCDay result ∧ getUTCDay result ≤ 5 := by
  have htr : ¬ trimStr s = [] := by
    intro h
    simp only [parse] at hok
    rw [if_pos h] at hok
    exact Except.noConfusion hok
  have hne : ¬ dateOnly = [] := by
    intro h
    subst h
    simp [afterTodayAbsolute, consumeToday_nil, _tryParseAbsoluteDate,
      tryPatterns_nil, trimStr] at hdot
  simp only [parse] at hok
  rw [if_neg htr, hex] at hok
  dsimp only at hok
  rcases hpd : _parseDate cfg dateOnly with e | date
  · rw [hpd] at hok
    dsimp only at hok
    exact Except.noConfusion hok
  · rw [hpd] at hok
    dsimp only at hok
    have hres : _applyTime cfg date ti = result := Except.ok.inj hok
    simp only [_parseDate] at hpd
    rw [if_neg hne] at hpd
    rcases hA : afterTodayAbsolute cfg dateOnly with ⟨d1, r⟩
    rw [hA] at hpd hdot
    dsimp only at hpd hdot
    rw [if_pos hdot] at hpd
    rcases hrel : _applyRelativeParts cfg.locale d1 (trimStr r).dropLast with e2 | d2
    · rw [hrel] at hpd
      dsimp only at hpd
      exact Except.noConfusion hpd
    · rw [hrel] at hpd
      dsimp only at hpd
      rw [if_pos hdot] at hpd
      have hd : _findClosestWorkday d2 = date := Except.ok.inj hpd
      have hday := applyTime_day cfg date ti
        (fun x hx => by
          subst hx
          exact extractTime_ranges cfg.locale (trimStr s) dateOnly x hex)
        hdt
      rw [← hres, hday, ← hd]
      exact closestWorkday_weekday_range d2

/-! ## Claim C8: defaultTime parsing at construction -/

/-- The source's `_parseTimeToken` computes exactly the specification's
split/numeric/range rule. -/
theorem parseTimeToken_spec (s : Str) :
    _parseTimeToken s = specParseTimeToken s := by
  simp only [_parseTimeToken, specParseTimeToken]
  rcases List.splitOn ':' s with _ | ⟨a, _ | ⟨b, _ | ⟨c, _ | ⟨d, rest⟩⟩⟩⟩
  · simp
  · rcases hja : jsNumber a with _ | va
    · simp [hja]
    · simp [hja]
      split_ifs <;> first | rfl | omega
  · rcases hja : jsNumber a with _ | va
    · simp [hja]
    · rcases hjb : jsNumber b with _ | vb
      · simp [hja, hjb]
      · simp [hja, hjb]
        split_ifs <;> first | rfl | omega
  · rcases hja : jsNumber a with _ | va
    · simp [hja]
    · rcases hjb : jsNumber b with _ | vb
      · simp [hja, hjb]
      · rcases hjc : jsNumber c with _ | vc
        · simp [hja, hjb, hjc]
        · simp [hja, hjb, hjc]
          split_ifs <;> first | rfl | omega
  · rw [if_pos (by simp), if_pos (by simp)]

/-- **C8.**  A non-empty `defaultTime` string is parsed by the
split-on-colon / 1-to-3-numeric-components / range-check rule
(`specParseTimeToken`), the constructor stores exactly its successful
result as the fallback time, and any configuration it returns carries a
time that passed both checks. -/
theorem C8_default_time (fromDate : Int) (loc : Localization) (s : Str)
    (hne : ¬ s = []) :
    _parseTimeToken s = specParseTimeToken s ∧
    mkConfig fromDate loc s
      = (specParseTimeToken s).map (fun ti => ⟨fromDate, loc, some ti⟩) ∧
    ∀ cfg, mkConfig fromDate loc s = .ok cfg →
      ∃ ti, specParseTimeToken s = .ok ti ∧ cfg.defaultTime = some ti := by
  refine ⟨parseTimeToken_spec s, ?_, ?_⟩
  · simp only [mkConfig]
    rw [if_neg hne, parseTimeToken_spec]
  · intro cfg hcfg
    simp only [mkConfig] at hcfg
    rw [if_neg hne, parseTimeToken_spec] at hcfg
    rcases hsp : specParseTimeToken s with e | ti
    · rw [hsp] at hcfg
      simp only [Except.map] at hcfg
      exact Except.noConfusion hcfg
    · rw [hsp] at hcfg
      simp only [Except.map] at hcfg
      refine ⟨ti, rfl, ?_⟩
      have h := Except.ok.inj hcfg
      rw [← h]

/-- Witness for C8 at `"9:30"` (which parses to 9:30:00). -/
theorem C8_default_time_witness :
    _parseTimeToken (str "9:30") = specParseTimeToken (str "9:30") ∧
    mkConfig 0 enLocale (str "9:30")
      = (specParseTimeToken (str "9:30")).map (fun ti => ⟨0, enLocale, some ti⟩) ∧
    ∀ cfg, mkConfig 0 enLocale (str "9:30") = .ok cfg →
      ∃ ti, specParseTimeToken (str "9:30") = .ok ti ∧ cfg.defaultTime = some ti :=
  C8_default_time 0 enLocale (str "9:30") (by decide)

/-! ## Claim C9: `parse` leaves the configuration unchanged (frame effect)

JavaScript `Date`s are mutable objects.  To state the frame property we use
a heap model: a heap is a list of date cells (time values in ms), a date
reference is an index, `new Date(v)` appends a cell, and the `setUTC*` /
`setTime` calls on a date are writes to its cell.  The parser's stages are
replayed against the heap with the verified pure functions supplying each
written value (consecutive writes to one cell between observations collapse
into the composite value; temporary dates that are only read — the
month-length probe and the `_findNthWeekday` probes — appear as their pure
values); every escaping `new Date` of the source is an allocation here.
The configuration holds the reference `fromDateRef` of the caller's
`fromDate` object. -/

def heapGet (h : List Int) (r : Nat) : Int := h.getD r 0

def heapSet (h : List Int) (r : Nat) (v : Int) : List Int := h.set r v

def heapAlloc (h : List Int) (v : Int) : Nat × List Int := (h.length, h ++ [v])

structure ConfigObj where
  fromDateRef : Nat
  locale : Localization
  defaultTime : Option TimeInfo

/-- The pure `Config` value a heap and a `ConfigObj` denote. -/
def ConfigObj.toConfig (cfg : ConfigObj) (h : List Int) : Config :=
  ⟨heapGet h cfg.fromDateRef, cfg.locale, cfg.defaultTime⟩

/-- The mutation loop of `_applyRelativeParts`: each part reads the working
cell, computes, and writes it back (a throwing part writes nothing). -/
def applyPartsObj (loc : Localization) (h : List Int) (r : Nat) :
    List Str → Except ParseError Unit × List Int
  | [] => (.ok (), h)
  | p :: ps =>
    match _applySinglePart loc (heapGet h r) p with
    | .error e => (.error e, h)
    | .ok v => applyPartsObj loc (heapSet h r v) r ps

/-- `_applyRelativeParts` on the heap. -/
def applyRelativePartsObj (loc : Localization) (h : List Int) (r : Nat)
    (shortcut : Str) : Except ParseError Unit × List Int :=
  let trimmed := trimStr shortcut
  if trimmed = [] then (.ok (), h)
  else applyPartsObj loc h r (rejoinSigns (splitWs (trimStr (signExpand trimmed))))

/-- The tail of `_parseDate` on the heap: workday marker, relative parts on
the working cell `r`, and the closest-workday clone. -/
def parseDateTailObj (loc : Localization) (h : List Int) (r : Nat)
    (remaining : Str) : Except ParseError Nat × List Int :=
  let workdayAdjust := (trimStr remaining).getLast? = some '.'
  let rem3 := if workdayAdjust then (trimStr remaining).dropLast else remaining
  match applyRelativePartsObj loc h r rem3 with
  | (.error e, h4) => (.error e, h4)
  | (.ok _, h4) =>
    if workdayAdjust then
      let (r3, h5) := heapAlloc h4 (_findClosestWorkday (heapGet h4 r))
      (.ok r3, h5)
    else (.ok r, h4)

/-- `_parseDate` on the heap: clone the reference instant, return the clone
for an empty shortcut, else reset it to midnight, consume a today keyword,
switch to a freshly built date on an absolute match, and run the tail. -/
def parseDateObj (cfg : ConfigObj) (h : List Int) (dateShortcut : Str) :
    Except ParseError Nat × List Int :=
  let (r, h1) := heapAlloc h (heapGet h cfg.fromDateRef)
  if dateShortcut = [] then (.ok r, h1)
  else
    let h2 := heapSet h1 r (setUTCHours (heapGet h1 r) 0 0 0 0)
    let rem1 := consumeTodayKeyword (sortedTodayWords cfg.locale) dateShortcut
    match _tryParseAbsoluteDate (cfg.toConfig h2) rem1 with
    | some (d, rem2) =>
      let (r2, h3) := heapAlloc h2 d
      parseDateTailObj cfg.locale h3 r2 rem2
    | none => parseDateTailObj cfg.locale h2 r rem1

/-- `_applyTime` on the heap: at most one write, to the result cell. -/
def applyTimeObj (cfg : ConfigObj) (h : List Int) (r : Nat)
    (timeInfo : Option TimeInfo) : List Int :=
  match timeInfo with
  | some ti => heapSet h r (setUTCHours (heapGet h r) ti.hour ti.minute ti.second 0)
  | none =>
    match cfg.defaultTime with
    | some ti => heapSet h r (setUTCHours (heapGet h r) ti.hour ti.minute ti.second 0)
    | none => h

/-- `parse` on the heap. -/
def parseObj (cfg : ConfigObj) (h : List Int) (shortcut : Str) :
    Except ParseError Nat × List Int :=
  let trimmed := trimStr shortcut
  if trimmed = [] then (.error .emptyShortcut, h)
  else
    match _extractTime cfg.locale trimmed with
    | .error e => (.error e, h)
    | .ok (timeInfo, dateShortcut) =>
      match parseDateObj cfg h dateShortcut with
      | (.error e, h1) => (.error e, h1)
      | (.ok r, h1) => (.ok r, applyTimeObj cfg h1 r timeInfo)

theorem length_heapSet (h : List Int) (r : Nat) (v : Int) :
    (heapSet h r v).length = h.length := List.length_set h r v

theorem take_heapSet (h : List Int) (r : Nat) (v : Int) :
    ∀ n, n ≤ r → (heapSet h r v).take n = h.take n := by
  induction h generalizing r with
  | nil => intro n _; rfl
  | cons a t ih =>
    intro n hn
    cases n with
    | zero => rfl
    | succ n =>
      cases r with
      | zero => omega
      | succ r =>
        simp only [heapSet, List.set_cons_succ, List.take_succ_cons]
        rw [show t.set r v = heapSet t r v from rfl, ih r n (by omega)]

theorem heapGet_heapSet_self (h : List Int) (r : Nat) (v : Int)
    (hr : r < h.length) : heapGet (heapSet h r v) r = v := by
  induction h generalizing r with
  | nil => simp at hr
  | cons a t ih =>
    cases r with
    | zero => rfl
    | succ r => exact ih r (by simpa using hr)

theorem heapGet_heapSet_ne (h : List Int) (r : Nat) (v : Int) (r2 : Nat)
    (hne : r2 ≠ r) : heapGet (heapSet h r v) r2 = heapGet h r2 := by
  induction h generalizing r r2 with
  | nil => rfl
  | cons a t ih =>
    cases r with
    | zero =>
      cases r2 with
      | zero => exact absurd rfl hne
      | succ r2 => rfl
    | succ r =>
      cases r2 with
      | zero => rfl
      | succ r2 => exact ih r r2 (by omega)

theorem heapGet_append (h : List Int) (v : Int) (r : Nat) (hr : r < h.length) :
    heapGet (h ++ [v]) r = heapGet h r := by
  induction h generalizing r with
  | nil => simp at hr
  | cons a t ih =>
    cases r with
    | zero => rfl
    | succ r => exact ih r (by simpa using hr)

theorem heapGet_append_self (h : List Int) (v : Int) :
    heapGet (h ++ [v]) h.length = v := by
  induction h with
  | nil => rfl
  | cons a t ih => exact ih

theorem take_append_self (h : List Int) (v : Int) :
    (h ++ [v]).take h.length = h := by
  induction h with
  | nil => rfl
  | cons a t ih =>
    simp only [List.cons_append, List.length_cons, List.take_succ_cons, ih]

theorem heapGet_take (h : List Int) (n r : Nat) (hr : r < n) :
    heapGet (h.take n) r = heapGet h r := by
  induction h generalizing n r with
  | nil => cases n <;> rfl
  | cons a t ih =>
    cases n with
    | zero => omega
    | succ n =>
      cases r with
      | zero => rfl
      | succ r => exact ih n r (by omega)

theorem heapGet_of_take_eq (h h2 : List Int) (n r : Nat) (hr : r < n)
    (ht : h2.take n = h.take n) : heapGet h2 r = heapGet h r := by
  rw [← heapGet_take h2 n r hr, ht, heapGet_take h n r hr]

/-- Frame, length and adequacy of the per-part mutation loop: pre-existing
cells up to `r` are untouched and the working cell follows the pure fold. -/
theorem applyPartsObj_props (loc : Localization) (parts : List Str)
    (h : List Int) (r : Nat) (hr : r < h.length) :
    (applyPartsObj loc h r parts).2.length = h.length ∧
    (∀ n, n ≤ r → (applyPartsObj loc h r parts).2.take n = h.take n) ∧
    (match List.foldlM (_applySinglePart loc) (heapGet h r) parts with
     | .ok v => (applyPartsObj loc h r parts).1 = .ok () ∧
         heapGet (applyPartsObj loc h r parts).2 r = v
     | .error e => (applyPartsObj loc h r parts).1 = .error e) := by
  induction parts generalizing h with
  | nil => exact ⟨rfl, fun n _ => rfl, ⟨rfl, rfl⟩⟩
  | cons p ps ih =>
    rcases hsp : _applySinglePart loc (heapGet h r) p with e | v
    · refine ⟨?_, ?_, ?_⟩
      · simp only [applyPartsObj, hsp]
      · intro n hn
        simp only [applyPartsObj, hsp]
      · have hb : List.foldlM (_applySinglePart loc) (heapGet h r) (p :: ps)
            = .error e := by
          rw [List.foldlM_cons, hsp]
          rfl
        rw [hb]
        show (applyPartsObj loc h r (p :: ps)).1 = .error e
        simp only [applyPartsObj, hsp]
    · have hlen : (heapSet h r v).length = h.length := length_heapSet h r v
      have hr2 : r < (heapSet h r v).length := by rw [hlen]; exact hr
      obtain ⟨ih1, ih2, ih3⟩ := ih (heapSet h r v) hr2
      have hbo : List.foldlM (_applySinglePart loc) (heapGet h r) (p :: ps)
          = List.foldlM (_applySinglePart loc) v ps := by
        rw [List.foldlM_cons, hsp]
        rfl
      have hhg : heapGet (heapSet h r v) r = v := heapGet_heapSet_self h r v hr
      refine ⟨?_, ?_, ?_⟩
      · simp only [applyPartsObj, hsp]
        rw [ih1, hlen]
      · intro n hn
        simp only [applyPartsObj, hsp]
        rw [ih2 n hn, take_heapSet h r v n hn]
      · rw [hbo]
        rw [hhg] at ih3
        rcases hfold : List.foldlM (_applySinglePart loc) v ps with e2 | w <;>
          rw [hfold] at ih3
        · show (applyPartsObj loc h r (p :: ps)).1 = .error e2
          simp only [applyPartsObj, hsp]
          exact ih3
        · obtain ⟨ih3a, ih3b⟩ := ih3
          refine ⟨?_, ?_⟩
          · show (applyPartsObj loc h r (p :: ps)).1 = .ok ()
            simp only [applyPartsObj, hsp]
            exact ih3a
          · show heapGet (applyPartsObj loc h r (p :: ps)).2 r = w
            simp only [applyPartsObj, hsp]
            exact ih3b

/-- Frame, length and adequacy of `applyRelativePartsObj` against the pure
`_applyRelativeParts`. -/
theorem applyRelativePartsObj_props (loc : Localization) (h : List Int)
    (r : Nat) (sc : Str) (hr : r < h.length) :
    (applyRelativePartsObj loc h r sc).2.length = h.length ∧
    (∀ n, n ≤ r → (applyRelativePartsObj loc h r sc).2.take n = h.take n) ∧
    (match _applyRelativeParts loc (heapGet h r) sc with
     | .ok v => (applyRelativePartsObj loc h r sc).1 = .ok () ∧
         heapGet (applyRelativePartsObj loc h r sc).2 r = v
     | .error e => (applyRelativePartsObj loc h r sc).1 = .error e) := by
  by_cases ht : trimStr sc = []
  · refine ⟨?_, ?_, ?_⟩
    · simp only [applyRelativePartsObj, if_pos ht]
    · intro n hn
      simp only [applyRelativePartsObj, if_pos ht]
    · simp only [_applyRelativeParts, if_pos ht]
      exact ⟨by simp only [applyRelativePartsObj, if_pos ht],
        by simp only [applyRelativePartsObj, if_pos ht]⟩
  · obtain ⟨h1, h2, h3⟩ := applyPartsObj_props loc
      (rejoinSigns (splitWs (trimStr (signExpand (trimStr sc))))) h r hr
    refine ⟨?_, ?_, ?_⟩
    · simp only [applyRelativePartsObj, if_neg ht]
      exact h1
    · intro n hn
      simp only [applyRelativePartsObj, if_neg ht]
      exact h2 n hn
    · simp only [_applyRelativeParts, if_neg ht, applyRelativePartsObj]
      exact h3

/-- Frame, freshness and adequacy of the `_parseDate` tail. -/
theorem parseDateTailObj_props (loc : Localization) (h : List Int) (r : Nat)
    (rem : Str) (hr : r < h.length) :
    h.length ≤ (parseDateTailObj loc h r rem).2.length ∧
    (∀ n, n ≤ r → (parseDateTailObj loc h r rem).2.take n = h.take n) ∧
    (match _applyRelativeParts loc (heapGet h r)
        (if (trimStr rem).getLast? = some '.' then (trimStr rem).dropLast else rem) with
     | .error e => (parseDateTailObj loc h r rem).1 = .error e
     | .ok d2 => ∃ r2, (parseDateTailObj loc h r rem).1 = .ok r2 ∧ r ≤ r2 ∧
         r2 < (parseDateTailObj loc h r rem).2.length ∧
         heapGet (parseDateTailObj loc h r rem).2 r2
           = (if (trimStr rem).getLast? = some '.' then _findClosestWorkday d2
              else d2)) := by
  obtain ⟨hL, hT, hM⟩ := applyRelativePartsObj_props loc h r
    (if (trimStr rem).getLast? = some '.' then (trimStr rem).dropLast else rem) hr
  rcases hobj : applyRelativePartsObj loc h r
      (if (trimStr rem).getLast? = some '.' then (trimStr rem).dropLast else rem)
    with ⟨res, h4⟩
  rw [hobj] at hL hT hM
  dsimp only at hL hT
  rcases hrel : _applyRelativeParts loc (heapGet h r)
      (if (trimStr rem).getLast? = some '.' then (trimStr rem).dropLast else rem)
    with e | d2 <;> rw [hrel] at hM
  · dsimp only at hM
    subst hM
    have hPD : parseDateTailObj loc h r rem = (.error e, h4) := by
      simp only [parseDateTailObj]
      rw [hobj]
    rw [hPD]
    exact ⟨by rw [show ((Except.error e : Except ParseError Nat), h4).2 = h4 from rfl]; omega,
      fun n hn => hT n hn, rfl⟩
  · obtain ⟨hM1, hM2⟩ := hM
    dsimp only at hM1 hM2
    have hres : res = .ok () := hM1
    subst hres
    by_cases hwd : (trimStr rem).getLast? = some '.'
    · have hPD : parseDateTailObj loc h r rem
          = (.ok h4.length, h4 ++ [_findClosestWorkday (heapGet h4 r)]) := by
        simp only [parseDateTailObj]
        rw [hobj]
        dsimp only [heapAlloc]
        rw [if_pos hwd]
      rw [hPD]
      refine ⟨?_, ?_, ?_⟩
      · simp only [List.length_append, List.length_cons, List.length_nil]
        omega
      · intro n hn
        have h44 : n ≤ h4.length := by omega
        rw [show ((Except.ok h4.length : Except ParseError Nat),
            h4 ++ [_findClosestWorkday (heapGet h4 r)]).2
          = h4 ++ [_findClosestWorkday (heapGet h4 r)] from rfl]
        rw [List.take_append_of_le_length h44]
        exact hT n hn
      · refine ⟨h4.length, rfl, by omega, ?_, ?_⟩
        · simp only [List.length_append, List.length_cons, List.length_nil]
          omega
        · rw [show ((Except.ok h4.length : Except ParseError Nat),
              h4 ++ [_findClosestWorkday (heapGet h4 r)]).2
            = h4 ++ [_findClosestWorkday (heapGet h4 r)] from rfl]
          rw [heapGet_append_self h4 (_findClosestWorkday (heapGet h4 r))]
          rw [hM2, if_pos hwd]
    · have hPD : parseDateTailObj loc h r rem = (.ok r, h4) := by
        simp only [parseDateTailObj]
        rw [hobj]
        dsimp only [heapAlloc]
        rw [if_neg hwd]
      rw [hPD]
      refine ⟨by dsimp only; omega, fun n hn => hT n hn,
        r, rfl, le_refl r, by dsimp only; omega, ?_⟩
      rw [show ((Except.ok r : Except ParseError Nat), h4).2 = h4 from rfl]
      rw [hM2, if_neg hwd]

/-- Frame, freshness and adequacy of `parseDateObj` against the pure
`_parseDate`. -/
theorem parseDateObj_props (cfg : ConfigObj) (h : List Int) (ds : Str)
    (hr : cfg.fromDateRef < h.length) :
    h.length ≤ (parseDateObj cfg h ds).2.length ∧
    (parseDateObj cfg h ds).2.take h.length = h ∧
    (match _parseDate (cfg.toConfig h) ds with
     | .error e => (parseDateObj cfg h ds).1 = .error e
     | .ok d => ∃ r, (parseDateObj cfg h ds).1 = .ok r ∧ h.length ≤ r ∧
         r < (parseDateObj cfg h ds).2.length ∧
         heapGet (parseDateObj cfg h ds).2 r = d) := by
  by_cases hds : ds = []
  · subst hds
    have hPD : parseDateObj cfg h []
        = (.ok h.length, h ++ [heapGet h cfg.fromDateRef]) := by
      simp only [parseDateObj, heapAlloc]
      rw [if_pos trivial]
    have hpure : _parseDate (cfg.toConfig h) [] = .ok (heapGet h cfg.fromDateRef) := by
      simp only [_parseDate, ConfigObj.toConfig]
      rw [if_pos trivial]
    rw [hPD, hpure]
    refine ⟨by simp, ?_, h.length, rfl, le_refl _, by simp, ?_⟩
    · exact take_append_self h (heapGet h cfg.fromDateRef)
    · exact heapGet_append_self h (heapGet h cfg.fromDateRef)
  · have hget1 : heapGet (h ++ [heapGet h cfg.fromDateRef]) h.length
        = heapGet h cfg.fromDateRef :=
      heapGet_append_self h (heapGet h cfg.fromDateRef)
    have hlen1 : (h ++ [heapGet h cfg.fromDateRef]).length = h.length + 1 := by simp
    have hrlt : h.length < (h ++ [heapGet h cfg.fromDateRef]).length := by omega
    have hget2 : heapGet
        (heapSet (h ++ [heapGet h cfg.fromDateRef]) h.length
          (setUTCHours (heapGet (h ++ [heapGet h cfg.fromDateRef]) h.length) 0 0 0 0))
        h.length
        = setUTCHours (heapGet h cfg.fromDateRef) 0 0 0 0 := by
      rw [heapGet_heapSet_self _ _ _ hrlt, hget1]
    have hgetF : heapGet
        (heapSet (h ++ [heapGet h cfg.fromDateRef]) h.length
          (setUTCHours (heapGet (h ++ [heapGet h cfg.fromDateRef]) h.length) 0 0 0 0))
        cfg.fromDateRef = heapGet h cfg.fromDateRef := by
      rw [heapGet_heapSet_ne _ _ _ _ (by omega), heapGet_append h _ _ hr]
    have hcfg2 : cfg.toConfig
        (heapSet (h ++ [heapGet h cfg.fromDateRef]) h.length
          (setUTCHours (heapGet (h ++ [heapGet h cfg.fromDateRef]) h.length) 0 0 0 0))
        = cfg.toConfig h := by
      simp only [ConfigObj.toConfig, hgetF]
    have hlen2 : (heapSet (h ++ [heapGet h cfg.fromDateRef]) h.length
        (setUTCHours (heapGet (h ++ [heapGet h cfg.fromDateRef]) h.length) 0 0 0 0)).length
        = h.length + 1 := by
      rw [length_heapSet, hlen1]
    have htake2 : (heapSet (h ++ [heapGet h cfg.fromDateRef]) h.length
        (setUTCHours (heapGet (h ++ [heapGet h cfg.fromDateRef]) h.length) 0 0 0 0)).take
          h.length = h := by
      rw [take_heapSet _ _ _ h.length (le_refl _), take_append_self]
    set h2 := heapSet (h ++ [heapGet h cfg.fromDateRef]) h.length
      (setUTCHours (heapGet (h ++ [heapGet h cfg.fromDateRef]) h.length) 0 0 0 0) with hh2
    have hpure : _parseDate (cfg.toConfig h) ds
        = (match _applyRelativeParts cfg.locale
              (afterTodayAbsolute (cfg.toConfig h) ds).1
              (if (trimStr (afterTodayAbsolute (cfg.toConfig h) ds).2).getLast?
                    = some '.'
                then (trimStr (afterTodayAbsolute (cfg.toConfig h) ds).2).dropLast
                else (afterTodayAbsolute (cfg.toConfig h) ds).2) with
           | .error e => .error e
           | .ok d2 => .ok
              (if (trimStr (afterTodayAbsolute (cfg.toConfig h) ds).2).getLast?
                    = some '.'
                then _findClosestWorkday d2 else d2)) := by
      simp only [_parseDate]
      rw [if_neg hds]
      rcases afterTodayAbsolute (cfg.toConfig h) ds with ⟨d1, rem⟩
      rfl
    rcases habs : _tryParseAbsoluteDate (cfg.toConfig h)
        (consumeTodayKeyword (sortedTodayWords cfg.locale) ds) with _ | ⟨d, rem2⟩
    · -- no absolute date: the tail runs on the midnight clone
      have hATA : afterTodayAbsolute (cfg.toConfig h) ds
          = (setUTCHours (heapGet h cfg.fromDateRef) 0 0 0 0,
             consumeTodayKeyword (sortedTodayWords cfg.locale) ds) := by
        simp only [afterTodayAbsolute, ConfigObj.toConfig]
        rw [show Config.mk (heapGet h cfg.fromDateRef) cfg.locale cfg.defaultTime
          = cfg.toConfig h from rfl, habs]
      have hPD : parseDateObj cfg h ds
          = parseDateTailObj cfg.locale h2 h.length
              (consumeTodayKeyword (sortedTodayWords cfg.locale) ds) := by
        simp only [parseDateObj, heapAlloc]
        rw [if_neg hds, hcfg2, habs]
      obtain ⟨tL, tT, tM⟩ := parseDateTailObj_props cfg.locale h2 h.length
        (consumeTodayKeyword (sortedTodayWords cfg.locale) ds) (by omega)
      rw [hget2] at tM
      refine ⟨?_, ?_, ?_⟩
      · rw [hPD]; omega
      · rw [hPD, tT h.length (le_refl _), htake2]
      · rw [hPD, hpure, hATA]
        dsimp only
        rcases hrel : _applyRelativeParts cfg.locale
            (setUTCHours (heapGet h cfg.fromDateRef) 0 0 0 0)
            (if (trimStr (consumeTodayKeyword (sortedTodayWords cfg.locale) ds)).getLast?
                  = some '.'
              then (trimStr (consumeTodayKeyword (sortedTodayWords cfg.locale) ds)).dropLast
              else consumeTodayKeyword (sortedTodayWords cfg.locale) ds)
          with e | d2 <;> rw [hrel] at tM
        · exact tM
        · obtain ⟨r2, t1, t2, t3, t4⟩ := tM
          exact ⟨r2, t1, by omega, t3, t4⟩
    · -- absolute date: the tail runs on the freshly built date
      have hATA : afterTodayAbsolute (cfg.toConfig h) ds = (d, rem2) := by
        simp only [afterTodayAbsolute, ConfigObj.toConfig]
        rw [show Config.mk (heapGet h cfg.fromDateRef) cfg.locale cfg.defaultTime
          = cfg.toConfig h from rfl, habs]
      have hPD : parseDateObj cfg h ds
          = parseDateTailObj cfg.locale (h2 ++ [d]) h2.length rem2 := by
        simp only [parseDateObj, heapAlloc]
        rw [if_neg hds, hcfg2, habs]
      have hget3 : heapGet (h2 ++ [d]) h2.length = d := heapGet_append_self h2 d
      obtain ⟨tL, tT, tM⟩ := parseDateTailObj_props cfg.locale (h2 ++ [d]) h2.length
        rem2 (by simp)
      rw [hget3] at tM
      have hlen3 : (h2 ++ [d]).length = h.length + 2 := by
        simp only [List.length_append, List.length_cons, List.length_nil]
        omega
      refine ⟨?_, ?_, ?_⟩
      · rw [hPD]; omega
      · rw [hPD, tT h.length (by omega),
          List.take_append_of_le_length (by omega), htake2]
      · rw [hPD, hpure, hATA]
        dsimp only
        rcases hrel : _applyRelativeParts cfg.locale d
            (if (trimStr rem2).getLast? = some '.'
              then (trimStr rem2).dropLast else rem2)
          with e | d2 <;> rw [hrel] at tM
        · exact tM
        · obtain ⟨r2, t1, t2, t3, t4⟩ := tM
          exact ⟨r2, t1, by omega, t3, t4⟩

/-- `_applyTime` on the heap: length kept, cells below the result cell kept,
and the result cell holds the pure `_applyTime` value. -/
theorem applyTimeObj_props (cfg : ConfigObj) (h : List Int) (r : Nat)
    (ti : Option TimeInfo) (hrl : r < h.length) (c : Config)
    (hc : c.defaultTime = cfg.defaultTime) :
    (applyTimeObj cfg h r ti).length = h.length ∧
    (∀ n, n ≤ r → (applyTimeObj cfg h r ti).take n = h.take n) ∧
    heapGet (applyTimeObj cfg h r ti) r = _applyTime c (heapGet h r) ti := by
  cases ti with
  | some x =>
    refine ⟨length_heapSet _ _ _, fun n hn => take_heapSet _ _ _ n hn, ?_⟩
    rw [show applyTimeObj cfg h r (some x)
      = heapSet h r (setUTCHours (heapGet h r) x.hour x.minute x.second 0) from rfl]
    rw [heapGet_heapSet_self _ _ _ hrl]
    rfl
  | none =>
    rcases hdt : cfg.defaultTime with _ | x
    · have hobj : applyTimeObj cfg h r none = h := by
        simp only [applyTimeObj]
        rw [hdt]
      have hpure : _applyTime c (heapGet h r) none = heapGet h r := by
        simp only [_applyTime]
        rw [hc, hdt]
      rw [hobj, hpure]
      exact ⟨rfl, fun n _ => rfl, rfl⟩
    · have hobj : applyTimeObj cfg h r none
          = heapSet h r (setUTCHours (heapGet h r) x.hour x.minute x.second 0) := by
        simp only [applyTimeObj]
        rw [hdt]
      have hpure : _applyTime c (heapGet h r) none
          = setUTCHours (heapGet h r) x.hour x.minute x.second 0 := by
        simp only [_applyTime]
        rw [hc, hdt]
      rw [hobj, hpure]
      exact ⟨length_heapSet _ _ _, fun n hn => take_heapSet _ _ _ n hn,
        heapGet_heapSet_self _ _ _ hrl⟩

/-- **C9.**  A `parse` call on the heap never touches the pre-existing
cells: the heap up to its original length — in particular the configured
reference instant's cell — is unchanged whether the call returns or throws,
the returned date is always a freshly allocated cell, and its value (and
any thrown error) is exactly that of the pure `parse` on the denoted
configuration. -/
theorem C9_parse_frame (cfg : ConfigObj) (h : List Int) (s : Str)
    (hr : cfg.fromDateRef < h.length) :
    (parseObj cfg h s).2.take h.length = h ∧
    heapGet (parseObj cfg h s).2 cfg.fromDateRef = heapGet h cfg.fromDateRef ∧
    (∀ r, (parseObj cfg h s).1 = .ok r → h.length ≤ r) ∧
    (∀ e, (parseObj cfg h s).1 = .error e →
      parse (cfg.toConfig h) s = .error e) ∧
    (∀ r, (parseObj cfg h s).1 = .ok r →
      parse (cfg.toConfig h) s = .ok (heapGet (parseObj cfg h s).2 r)) := by
  by_cases htr : trimStr s = []
  · have hobj : parseObj cfg h s = (.error .emptyShortcut, h) := by
      simp only [parseObj]
      rw [if_pos htr]
    have hpure : parse (cfg.toConfig h) s = .error .emptyShortcut := by
      simp only [parse]
      rw [if_pos htr]
    rw [hobj, hpure]
    refine ⟨List.take_length h, rfl, ?_, ?_, ?_⟩
    · intro r hko
      exact Except.noConfusion hko
    · intro e he
      rw [Except.error.inj he]
    · intro r hko
      exact Except.noConfusion hko
  · rcases hex : _extractTime cfg.locale (trimStr s) with e | ⟨ti, ds⟩
    · have hobj : parseObj cfg h s = (.error e, h) := by
        simp only [parseObj]
        rw [if_neg htr, hex]
      have hpure : parse (cfg.toConfig h) s = .error e := by
        simp only [parse, ConfigObj.toConfig]
        rw [if_neg htr, hex]
      rw [hobj, hpure]
      refine ⟨List.take_length h, rfl, ?_, ?_, ?_⟩
      · intro r hko
        exact Except.noConfusion hko
      · intro e2 he
        rw [Except.error.inj he]
      · intro r hko
        exact Except.noConfusion hko
    · obtain ⟨pL, pT, pM⟩ := parseDateObj_props cfg h ds hr
      rcases hpd : parseDateObj cfg h ds with ⟨res, h1⟩
      rw [hpd] at pL pT pM
      dsimp only at pL pT
      rcases hpru : _parseDate (cfg.toConfig h) ds with e | d <;> rw [hpru] at pM
      · dsimp only at pM
        subst pM
        have hobj : parseObj cfg h s = (.error e, h1) := by
          simp only [parseObj]
          rw [if_neg htr, hex]
          dsimp only
          rw [hpd]
        have hpure : parse (cfg.toConfig h) s = .error e := by
          simp only [parse, ConfigObj.toConfig]
          rw [if_neg htr, hex]
          dsimp only
          rw [show Config.mk (heapGet h cfg.fromDateRef) cfg.locale cfg.defaultTime
            = cfg.toConfig h from rfl, hpru]
        rw [hobj, hpure]
        refine ⟨pT, heapGet_of_take_eq h h1 h.length cfg.fromDateRef hr
          (by rw [List.take_length]; exact pT), ?_, ?_, ?_⟩
        · intro r hko
          exact Except.noConfusion hko
        · intro e2 he
          rw [Except.error.inj he]
        · intro r hko
          exact Except.noConfusion hko
      · obtain ⟨rr, p1, p2, p3, p4⟩ := pM
        dsimp only at p1 p3 p4
        subst p1
        obtain ⟨aL, aT, aG⟩ := applyTimeObj_props cfg h1 rr ti p3 (cfg.toConfig h) rfl
        have hobj : parseObj cfg h s = (.ok rr, applyTimeObj cfg h1 rr ti) := by
          simp only [parseObj]
          rw [if_neg htr, hex]
          dsimp only
          rw [hpd]
        have hpure : parse (cfg.toConfig h) s
            = .ok (_applyTime (cfg.toConfig h) d ti) := by
          simp only [parse, ConfigObj.toConfig]
          rw [if_neg htr, hex]
          dsimp only
          rw [show Config.mk (heapGet h cfg.fromDateRef) cfg.locale cfg.defaultTime
            = cfg.toConfig h from rfl, hpru]
        have htk : (applyTimeObj cfg h1 rr ti).take h.length = h := by
          rw [aT h.length p2, pT]
        rw [hobj, hpure]
        refine ⟨htk, heapGet_of_take_eq h (applyTimeObj cfg h1 rr ti) h.length
          cfg.fromDateRef hr (by rw [List.take_length]; exact htk), ?_, ?_, ?_⟩
        · intro r hko
          rw [← Except.ok.inj hko]
          exact p2
        · intro e2 he
          exact Except.noConfusion he
        · intro r hko
          rw [← Except.ok.inj hko]
          rw [show ((Except.ok rr : Except ParseError Nat),
            applyTimeObj cfg h1 rr ti).2 = applyTimeObj cfg h1 rr ti from rfl]
          rw [aG, p4]

/-- Witness for C9: a one-cell heap holding the reference instant
2024-05-18T00:00Z at cell 0, shortcut `"1d"`. -/
theorem C9_parse_frame_witness :
    (parseObj ⟨0, enLocale, none⟩ [1715990400000] (str "1d")).2.take 1
        = [1715990400000] ∧
    heapGet (parseObj ⟨0, enLocale, none⟩ [1715990400000] (str "1d")).2 0
        = heapGet [1715990400000] 0 ∧
    (∀ r, (parseObj ⟨0, enLocale, none⟩ [1715990400000] (str "1d")).1 = .ok r →
      1 ≤ r) ∧
    (∀ e, (parseObj ⟨0, enLocale, none⟩ [1715990400000] (str "1d")).1 = .error e →
      parse (ConfigObj.toConfig ⟨0, enLocale, none⟩ [1715990400000]) (str "1d")
        = .error e) ∧
    (∀ r, (parseObj ⟨0, enLocale, none⟩ [1715990400000] (str "1d")).1 = .ok r →
      parse (ConfigObj.toConfig ⟨0, enLocale, none⟩ [1715990400000]) (str "1d")
        = .ok (heapGet
            (parseObj ⟨0, enLocale, none⟩ [1715990400000] (str "1d")).2 r)) :=
  C9_parse_frame ⟨0, enLocale, none⟩ [1715990400000] (str "1d") (by decide)

/-- Witness for C10: `"1d ."` with reference instant 2024-05-18T00:00Z (a
Saturday) and no default time: one day forward is Sunday 2024-05-19, the
marker moves it to Monday 2024-05-20, whose weekday is 1. -/
theorem C10_workday_weekday_witness :
    1 ≤ getUTCDay 1716163200000 ∧ getUTCDay (1716163200000 : Int) ≤ 5 :=
  C10_workday_weekday ⟨1715990400000, enLocale, none⟩ (str "1d .") none
    (str "1d .") 1716163200000 (by decide) (by decide)
    (fun x hx => Option.noConfusion hx) (by decide)

end DateShortcuts
